import Mathlib

set_option maxHeartbeats 1000000

/-!
Shallow embedding of the "Functional" terminal-UI engine
(src/event/event.py, src/event/eventable.py, src/event/eventQueue.py,
src/canvas.py, src/terminal.py) together with theorems settling the
frozen claims about it.

Conventions used throughout:
* Python strings are modelled as Lean `String` (event payloads) or
  `List Char` (canvas rows, raw input bytes).
* Python `assert` failures and raised exceptions are modelled as
  `Except String` errors carrying the exception name.
* Machine-level concerns (raw tty mode, actual stdout writes, thread
  scheduling) are modelled as explicit data: output is a trace, input is a
  list of bytes, time is an exact rational passed to each step.
-/

/-! ## Events (src/event/event.py)

An event is a `type` tag plus an ordered argument list (`BaseEvent.type`,
`BaseEvent.args`).  Arguments occurring in this repository are strings,
ints, bools, exceptions (modelled by their message), lists of ints
(`cursor_pos`) and Python `None`. -/

inductive EvArg where
  | s (v : String)
  | n (v : Int)
  | b (v : Bool)
  | exc (v : String)
  | ns (v : List Int)
  | pynone
deriving DecidableEq, Repr

structure Event where
  type : String
  args : List EvArg
deriving DecidableEq, Repr

/-- `BaseEvent.load(event, args)`: looks the tag up in the subclass registry
and constructs the matching event class, falling back to `OtherEvent`.
The only constructor that changes the stored args is `KeyEvent`, which
fills in the default `alt=False`. -/
def loadEvent (type : String) (args : List EvArg) : Event :=
  match type, args with
  | "key", [.s k] => ⟨"key", [.s k, .b false]⟩
  | "key", [.s k, .b a] => ⟨"key", [.s k, .b a]⟩
  | t, a => ⟨t, a⟩

/-- Python `str.lower()` (tags and matchers in this repository are ASCII). -/
def pyLower (s : String) : String := String.mk (s.toList.map Char.toLower)

/-- `BaseEvent.match` / `KeyEvent.match` restricted to string matchers (the
matcher kind used by the claims): a string matcher matches when it equals
the type tag case-insensitively, or — for key events — when it equals the
key payload.  (For a one-character string the Python `Sequence`-of-length-1
branch of `KeyEvent.match` computes the same result as the string branch.) -/
def Event.matchStr (ev : Event) (m : String) : Bool :=
  if pyLower ev.type == pyLower m then true
  else if ev.type == "key" then
    match ev.args with
    | EvArg.s k :: _ => k == m
    | _ => false
  else false

/-! ## Eventable (src/event/eventable.py)

`Eventable` carries a plain-list event queue, a listener registry
(`dict` from matcher to list of `(callback, auto_remove)` pairs; Python
dicts preserve insertion order, modelled by an association list with
unique keys), and dispatch methods.  Callbacks are modelled by an id
(Python object identity, used by `list.remove`'s equality test) plus
their behaviour when invoked: either return normally or raise the given
exception.  The `trace` field below is instrumentation recording which
callbacks were invoked, in order — the observable the dispatch claims
talk about. -/

structure Callback where
  id : Nat
  raises : Option String
deriving DecidableEq, Repr

def CATCH_EXCEPTIONS : Bool := true

def ANY_EVENTS : Bool := false

/-- `Eventable.call_event` on the queue: builds the event via
`BaseEvent.load` and appends it.  With `ANY_EVENTS = False` (the constant
in the source) no wrapping "any" event is produced, and `log` has no
effect on the modelled state. -/
def call_event_queue (q : List Event) (type : String) (args : List EvArg) : List Event :=
  q ++ [loadEvent type args]

/-- `Eventable.exec_callback`: runs the callback; if it raises and
`CATCH_EXCEPTIONS` is set, enqueues one `error` event carrying the
exception unless the event being handled is itself an `error` event.
Returns the updated queue and the success flag the method returns.
(The `raise` branch is unreachable because `CATCH_EXCEPTIONS` is the
constant `True` in the source.) -/
def exec_callback (q : List Event) (cb : Callback) (ev : Event) : List Event × Bool :=
  match cb.raises with
  | none => (q, true)
  | some e =>
    if CATCH_EXCEPTIONS then
      if ev.type ≠ "error" then (call_event_queue q "error" [.exc e], false)
      else (q, false)
    else (q, false)

structure EvState where
  queue : List Event
  listeners : List (String × List (Callback × Bool))
  trace : List Nat
deriving DecidableEq, Repr

/-- `self.listeners[e]` for a key known to be present (keys handed to
`handleEventGo` come from the registry itself). -/
def lookupListeners (ls : List (String × List (Callback × Bool))) (k : String) :
    List (Callback × Bool) :=
  match ls.lookup k with
  | some l => l
  | none => []

/-- Replace the listener list stored under key `k` (keys are unique). -/
def setListeners (ls : List (String × List (Callback × Bool))) (k : String)
    (v : List (Callback × Bool)) : List (String × List (Callback × Bool)) :=
  ls.map (fun p => if p.1 == k then (p.1, v) else p)

/-- The inner loop of `Eventable.handle_event`:
`for callback, auto_remove in listners: ...`.

`self.listeners.copy()` is a *shallow* dict copy, so `listners` is the very
list object stored in the registry; `self.listeners[e].remove(...)` mutates
the list being iterated.  A Python list iterator holds an index `i`,
re-reads the current list at each step and stops when `i` reaches the
current length — which is exactly what this function does (`lst` is the
current content of the shared list).  `list.remove(x)` deletes the first
element equal to `x` (`List.erase`).  The fuel argument only bounds the
iteration count; `i` grows by one per step and the list never grows, so
`lst.length + 1` fuel is always sufficient. -/
def iterListeners : Nat → Event → List Event → List Nat → List (Callback × Bool) → Nat →
    List Event × List Nat × List (Callback × Bool)
  | 0, _, q, tr, lst, _ => (q, tr, lst)
  | fuel + 1, ev, q, tr, lst, i =>
    match lst.get? i with
    | none => (q, tr, lst)
    | some (cb, ar) =>
      let r := exec_callback q cb ev
      let tr' := tr ++ [cb.id]
      let lst' := if ar then lst.erase (cb, ar) else lst
      iterListeners fuel ev r.1 tr' lst' (i + 1)

/-- The outer loop of `Eventable.handle_event`: iterate over the keys of
the (shallow-copied) registry in insertion order; for each matching key run
the inner loop on the shared listener list and store its final content
back.  The trailing `on_<type>` fallback is skipped: the base `Eventable`
defines no `on_*` methods (`set_default_listeners` is `pass`). -/
def handleEventGo (ev : Event) : List String → EvState → EvState
  | [], st => st
  | k :: ks, st =>
    if ev.matchStr k then
      let lst := lookupListeners st.listeners k
      let r := iterListeners (lst.length + 1) ev st.queue st.trace lst 0
      handleEventGo ev ks ⟨r.1, setListeners st.listeners k r.2.2, r.2.1⟩
    else handleEventGo ev ks st

/-- `Eventable.handle_event`. -/
def handle_event (st : EvState) (ev : Event) : EvState :=
  handleEventGo ev (st.listeners.map Prod.fst) st

/-- `Eventable.add_listener`. -/
def add_listener (st : EvState) (k : String) (cb : Callback) (ar : Bool) : EvState :=
  if (st.listeners.lookup k).isSome then
    { st with listeners :=
        setListeners st.listeners k (lookupListeners st.listeners k ++ [(cb, ar)]) }
  else
    { st with listeners := st.listeners ++ [(k, [(cb, ar)])] }

/-- `Eventable.handle_events(limit)`: pop from the front of the queue and
dispatch, up to `limit` times, returning the number of events processed. -/
def handle_events : EvState → Nat → EvState × Nat
  | st, 0 => (st, 0)
  | st, limit + 1 =>
    match st.queue with
    | [] => (st, 0)
    | ev :: q' =>
      let st' := handle_event { st with queue := q' } ev
      let r := handle_events st' limit
      (r.1, r.2 + 1)

/-! ## Producer/consumer queue model (claim C9)

`Eventable.call_event` appends to the shared `event_queue`
(`self.event_queue.append(event)`); `Eventable.handle_events` pops its
head (`self.event_queue.pop(0)`), guarded by `and self.event_queue`.
Under CPython each of these list operations is atomic, so a concurrent
execution of one producer and one consumer is an arbitrary interleaving
of atomic `produce` and `consume` actions on the shared queue. -/

inductive QAct where
  | produce (e : Event)
  | consume
deriving DecidableEq, Repr

structure QSt where
  queue : List Event
  consumed : List Event
deriving DecidableEq, Repr

/-- One atomic action on the shared queue.  `produce` (an
`event_queue.append`) is enabled in every state — it never blocks.
`consume` models one iteration of the `handle_events` loop body: if the
queue is empty the pop is not executed (the `while` guard fails). -/
def qstep (s : QSt) : QAct → QSt
  | QAct.produce e => { s with queue := s.queue ++ [e] }
  | QAct.consume =>
    match s.queue with
    | [] => s
    | e :: q => ⟨q, s.consumed ++ [e]⟩

def qrun (acts : List QAct) : QSt := acts.foldl qstep ⟨[], []⟩

/-- The events appended by the producer, in program order. -/
def producedEvents : List QAct → List Event
  | [] => []
  | QAct.produce e :: r => e :: producedEvents r
  | QAct.consume :: r => producedEvents r

/-! ## Canvas (src/canvas.py)

A canvas row (a Python string of length `w`) is a `List Char`; the style
grid rows are `List Int`.  Coordinates are modelled as `Nat`: every
operation asserts `0 <= coord` before using it, so negative arguments
always raise `AssertionError` in Python and carry no behaviour worth
modelling.  `assert` failures and Python runtime errors are `Except`
errors named after the exception. -/

def DEFAULT_CHAR : Char := ' '

def DEFAULT_STYLE : Int := 0

structure Canvas where
  w : Nat
  h : Nat
  data : List (List Char)
deriving DecidableEq, Repr

/-- `Canvas.__init__(w, h, char)`: `self.data = [char * self.w] * self.h`.
(`assert len(char) == 1` holds by the `Char` type.) -/
def Canvas.init (w h : Nat) (char : Char := DEFAULT_CHAR) : Canvas :=
  ⟨w, h, List.replicate h (List.replicate w char)⟩

deriving instance DecidableEq for Except

/-- Python list subscript `l[i]` for `i ≥ 0`. -/
def pyGet {α : Type} (l : List α) (i : Nat) : Except String α :=
  match l.get? i with
  | some a => Except.ok a
  | none => Except.error "IndexError"

def Canvas.get_line (c : Canvas) (y : Nat) : Except String (List Char) :=
  if y < c.h then pyGet c.data y else Except.error "AssertionError"

def Canvas.set_line (c : Canvas) (y : Nat) (line : List Char) : Except String Canvas :=
  if y < c.h ∧ line.length = c.w then
    if y < c.data.length then Except.ok { c with data := c.data.set y line }
    else Except.error "IndexError"
  else Except.error "AssertionError"

/-- `Canvas.get_line_part`: a zero-width request returns `""` before any
bounds check; `l[x:x+w]` is `(l.drop x).take w`. -/
def Canvas.get_line_part (c : Canvas) (y x w : Nat) : Except String (List Char) :=
  if w = 0 then Except.ok []
  else if x < c.w ∧ y < c.h ∧ w ≤ c.w - x then
    (c.get_line y).map (fun l => (l.drop x).take w)
  else Except.error "AssertionError"

/-- `Canvas.set_line_part`: an empty part is a no-op; otherwise splices
`part` into the row: `l[:x] + part + l[x+w:]`. -/
def Canvas.set_line_part (c : Canvas) (y x : Nat) (part : List Char) : Except String Canvas :=
  if part = [] then Except.ok c
  else if x < c.w ∧ y < c.h ∧ part.length ≤ c.w - x then do
    let l ← c.get_line y
    c.set_line y (l.take x ++ part ++ l.drop (x + part.length))
  else Except.error "AssertionError"

def Canvas.get_at (c : Canvas) (x y : Nat) : Except String (List Char) :=
  c.get_line_part y x 1

def Canvas.set_at (c : Canvas) (x y : Nat) (char : Char) : Except String Canvas :=
  c.set_line_part y x [char]

/-- Python `str.split(sep)` (always returns at least one piece). -/
def pySplit (sep : Char) : List Char → List (List Char)
  | [] => [[]]
  | c :: cs =>
    match pySplit sep cs with
    | p :: ps => if c = sep then [] :: p :: ps else (c :: p) :: ps
    | [] => [[c]]

/-- The inner `while True` loop of `Canvas.split_text` for one line of the
text: yield width-clamped pieces `(x, y, line[:pw])`, advancing `y` and
resetting `x` to `0`, until the line is exhausted (`some` of the next `y`)
or the bottom of the canvas is reached (`none`: the generator returns and
the remaining lines are dropped).  The `x < w` guard holds at every call
(asserted by `split_text` on entry, and `x = 0 < w` afterwards). -/
def splitLineGo (w h : Nat) (x y : Nat) (line : List Char) :
    List (Nat × Nat × List Char) × Option Nat :=
  if hx : x < w then
    let pw := min (w - x) line.length
    let rest := line.drop pw
    if y + 1 ≥ h then ([(x, y, line.take pw)], none)
    else if hr : rest = [] then ([(x, y, line.take pw)], some (y + 1))
    else
      let r := splitLineGo w h 0 (y + 1) rest
      ((x, y, line.take pw) :: r.1, r.2)
  else ([], none)
termination_by line.length
decreasing_by
  simp only [List.length_drop]
  have hlen : ¬ line.length ≤ min (w - x) line.length := fun hle =>
    hr (List.drop_eq_nil_of_le hle)
  omega

/-- The outer `for line in text.split("\n")` loop of `Canvas.split_text`. -/
def splitTextGo (w h : Nat) : Nat → Nat → List (List Char) → List (Nat × Nat × List Char)
  | _, _, [] => []
  | x, y, line :: rest =>
    match splitLineGo w h x y line with
    | (ps, none) => ps
    | (ps, some y') => ps ++ splitTextGo w h 0 y' rest

/-- `Canvas.split_text` (the generator is consumed eagerly by its only
caller `write_at` and reads nothing but the fixed `w`, `h`, so computing
the piece list up front is equivalent). -/
def Canvas.split_text (c : Canvas) (x y : Nat) (text : List Char) :
    Except String (List (Nat × Nat × List Char)) :=
  if x < c.w ∧ y < c.h then Except.ok (splitTextGo c.w c.h x y (pySplit '\n' text))
  else Except.error "AssertionError"

/-- `Canvas.write_at`: `for x, y, part in self.split_text(x, y, text):
self.set_line_part(y, x, part)`. -/
def Canvas.write_at (c : Canvas) (x y : Nat) (text : List Char) : Except String Canvas := do
  let ps ← c.split_text x y text
  ps.foldlM (fun cv p => cv.set_line_part p.2.1 p.1 p.2.2) c

/-- `Canvas.fill`: `l = char * self.w` once, then `set_line` on every row. -/
def Canvas.fill (c : Canvas) (char : Char) : Except String Canvas :=
  (List.range c.h).foldlM (fun cv y => cv.set_line y (List.replicate c.w char)) c

def Canvas.clear (c : Canvas) : Except String Canvas :=
  c.fill DEFAULT_CHAR

/-- `Canvas.copy`: builds `self.__class__(w, h)` and replaces its grid with
a shallow copy of `self.data` (rows are immutable strings), so the result
is structurally identical to the source. -/
def Canvas.copy (c : Canvas) : Canvas := ⟨c.w, c.h, c.data⟩

/-- `Canvas.copy_line_part`.  Note the source's third assert is
`0 <= dest_y <= dest.w` — it compares the destination row index with the
destination *width*. -/
def Canvas.copy_line_part (c : Canvas) (dest : Canvas) (y dest_y x : Nat) :
    Except String Canvas :=
  if x < c.w ∧ y < c.h ∧ dest_y ≤ dest.w then do
    let part ← c.get_line_part y x dest.w
    dest.set_line dest_y part
  else Except.error "AssertionError"

def Canvas.blit_line_part (c : Canvas) (src : Canvas) (y src_y x : Nat) :
    Except String Canvas :=
  if x < c.w ∧ y < c.h ∧ src_y ≤ src.h then do
    let line ← src.get_line src_y
    c.set_line_part y x line
  else Except.error "AssertionError"

/-- `Canvas.sub`: identity region short-circuits to `copy`; otherwise a
fresh `Canvas(w, h)` is filled row by row with `copy_line_part`. -/
def Canvas.sub (c : Canvas) (x y w h : Nat) : Except String Canvas :=
  if x < c.w ∧ y < c.h ∧ w ≤ c.w - x ∧ h ≤ c.h - y then
    if x = 0 ∧ y = 0 ∧ w = c.w ∧ h = c.h then Except.ok c.copy
    else (List.range h).foldlM (fun new i => c.copy_line_part new (y + i) i x) (Canvas.init w h)
  else Except.error "AssertionError"

def Canvas.blit (c : Canvas) (src : Canvas) (x y : Nat) : Except String Canvas :=
  if x < c.w ∧ y < c.h ∧ src.w ≤ c.w - x ∧ src.h ≤ c.h - y then
    (List.range src.h).foldlM (fun cv i => cv.blit_line_part src (y + i) i x) c
  else Except.error "AssertionError"

def Canvas.rect (c : Canvas) (x y w h : Nat) (char : Char := DEFAULT_CHAR) :
    Except String Canvas :=
  c.blit (Canvas.init w h char) x y

/-! ### Canvas.draw

The sink is a trace of terminal instructions: `Terminal.write` of the
stripped row (with `NO_UNDERLINE = False` the text is written verbatim),
`clear_to_end_of_line`, and `write_line` (a `"\r\n"` line break). -/

inductive DrawOp where
  | write (s : List Char)
  | clearToEol
  | newLine
deriving DecidableEq, Repr

/-- Python `str.isspace()` — the test `str.rstrip()` strips by.  This is
the exact CPython whitespace set (`Py_UNICODE_ISSPACE`): `0x09`–`0x0D`,
`0x1C`–`0x1F`, space, NEL `0x85`, NBSP `0xA0`, Ogham space `0x1680`, the
Unicode space separators `0x2000`–`0x200A`, the line/paragraph separators
`0x2028`/`0x2029`, and `0x202F`, `0x205F`, `0x3000`. -/
def pyIsSpace (c : Char) : Bool :=
  let n := c.toNat
  (9 ≤ n && n ≤ 13) || (28 ≤ n && n ≤ 32) || n == 0x85 || n == 0xa0 ||
    n == 0x1680 || (0x2000 ≤ n && n ≤ 0x200a) || n == 0x2028 || n == 0x2029 ||
    n == 0x202f || n == 0x205f || n == 0x3000

/-- Python `str.rstrip()`: remove all trailing whitespace characters. -/
def pyRstrip (l : List Char) : List Char := (l.reverse.dropWhile pyIsSpace).reverse

/-- `Canvas.draw(term)`: per row, write `line.rstrip()`, clear to end of
line iff the row was shortened, then a line break. -/
def Canvas.draw (c : Canvas) : List DrawOp :=
  c.data.foldl (fun acc line =>
    let l := pyRstrip line
    acc ++ [DrawOp.write l] ++
      (if l.length ≠ line.length then [DrawOp.clearToEol] else []) ++ [DrawOp.newLine]) []

/-- Modelled from the spec for refinement comparison only (claim C8) — this
definition follows the SPEC's words, not the source: "for each row, strips
trailing default-character cells, writes the remainder, and if the row was
shortened, issues a clear-to-end-of-line instruction" before the line
break. -/
def drawSpec (c : Canvas) : List DrawOp :=
  c.data.foldl (fun acc line =>
    let l := (line.reverse.dropWhile (· == DEFAULT_CHAR)).reverse
    acc ++ [DrawOp.write l] ++
      (if l.length ≠ line.length then [DrawOp.clearToEol] else []) ++ [DrawOp.newLine]) []

/-! ### StylizedCanvas

Modelled as a standalone structure; methods inherited unchanged from
`Canvas` that touch only the character grid are lifted through `chars` /
`withChars`, and methods that `StylizedCanvas` overrides (or that
dynamically dispatch into overridden ones — `blit`, `sub`, `rect`, `copy`)
are spelled out following the subclass's code. -/

structure SCanvas where
  w : Nat
  h : Nat
  data : List (List Char)
  styles : List (List Int)
deriving DecidableEq, Repr

/-- `StylizedCanvas.__init__(w, h, char, style)`: note the source calls
`super().__init__(w, h)` without forwarding `char`, so the character grid
is always filled with `DEFAULT_CHAR`; `styles` is an `h × w` grid of
`style`. -/
def SCanvas.init (w h : Nat) (_char : Char := DEFAULT_CHAR) (style : Int := DEFAULT_STYLE) :
    SCanvas :=
  ⟨w, h, List.replicate h (List.replicate w DEFAULT_CHAR),
    List.replicate h (List.replicate w style)⟩

def SCanvas.chars (c : SCanvas) : Canvas := ⟨c.w, c.h, c.data⟩

def SCanvas.withChars (c : SCanvas) (cv : Canvas) : SCanvas := { c with data := cv.data }

def SCanvas.set_line (c : SCanvas) (y : Nat) (line : List Char) : Except String SCanvas :=
  (c.chars.set_line y line).map c.withChars

def SCanvas.set_line_part (c : SCanvas) (y x : Nat) (part : List Char) :
    Except String SCanvas :=
  (c.chars.set_line_part y x part).map c.withChars

def SCanvas.set_at (c : SCanvas) (x y : Nat) (char : Char) : Except String SCanvas :=
  (c.chars.set_at x y char).map c.withChars

def SCanvas.write_at (c : SCanvas) (x y : Nat) (text : List Char) : Except String SCanvas :=
  (c.chars.write_at x y text).map c.withChars

def SCanvas.fill (c : SCanvas) (char : Char) : Except String SCanvas :=
  (c.chars.fill char).map c.withChars

def SCanvas.get_style_line (c : SCanvas) (y : Nat) : Except String (List Int) :=
  if y < c.h then pyGet c.styles y else Except.error "AssertionError"

/-- `StylizedCanvas.set_style_line` stores `style.copy()` (a fresh list
with the same elements). -/
def SCanvas.set_style_line (c : SCanvas) (y : Nat) (style : List Int) :
    Except String SCanvas :=
  if y < c.h ∧ style.length = c.w then
    if y < c.styles.length then Except.ok { c with styles := c.styles.set y style }
    else Except.error "IndexError"
  else Except.error "AssertionError"

def SCanvas.get_style_line_part (c : SCanvas) (y x w : Nat) : Except String (List Int) :=
  if w = 0 then Except.ok []
  else if x < c.w ∧ y < c.h ∧ w ≤ c.w - x then
    (c.get_style_line y).map (fun l => (l.drop x).take w)
  else Except.error "AssertionError"

def SCanvas.set_style_line_part (c : SCanvas) (y x : Nat) (part : List Int) :
    Except String SCanvas :=
  if part = [] then Except.ok c
  else if x < c.w ∧ y < c.h ∧ part.length ≤ c.w - x then do
    let l ← c.get_style_line y
    c.set_style_line y (l.take x ++ part ++ l.drop (x + part.length))
  else Except.error "AssertionError"

def SCanvas.set_style_at (c : SCanvas) (x y : Nat) (style : Int) : Except String SCanvas :=
  c.set_style_line_part y x [style]

def SCanvas.fill_style (c : SCanvas) (style : Int) : Except String SCanvas :=
  (List.range c.h).foldlM (fun cv y => cv.set_style_line y (List.replicate cv.w style)) c

def SCanvas.clear_style (c : SCanvas) : Except String SCanvas :=
  c.fill_style DEFAULT_STYLE

/-- `StylizedCanvas.clear`: `super().clear()` then `clear_style`. -/
def SCanvas.clear (c : SCanvas) : Except String SCanvas := do
  let c' ← (c.chars.fill DEFAULT_CHAR).map c.withChars
  c'.clear_style

/-- `StylizedCanvas.blit_line_part`: `super().blit_line_part(...)` then
splice the source's style row in. -/
def SCanvas.blit_line_part (c : SCanvas) (src : SCanvas) (y src_y x : Nat) :
    Except String SCanvas := do
  let c' ← (c.chars.blit_line_part src.chars y src_y x).map c.withChars
  let styleLine ← src.get_style_line src_y
  c'.set_style_line_part y x styleLine

/-- `Canvas.blit` as run on a `StylizedCanvas`: dispatches into the
overridden `blit_line_part`. -/
def SCanvas.blit (c : SCanvas) (src : SCanvas) (x y : Nat) : Except String SCanvas :=
  if x < c.w ∧ y < c.h ∧ src.w ≤ c.w - x ∧ src.h ≤ c.h - y then
    (List.range src.h).foldlM (fun cv i => cv.blit_line_part src (y + i) i x) c
  else Except.error "AssertionError"

/-- `Canvas.rect` as run on a `StylizedCanvas`: `self.__class__(w, h, *args)`
constructs a `StylizedCanvas`. -/
def SCanvas.rect (c : SCanvas) (x y w h : Nat) (char : Char := DEFAULT_CHAR)
    (style : Int := DEFAULT_STYLE) : Except String SCanvas :=
  c.blit (SCanvas.init w h char style) x y

/-- `StylizedCanvas.copy`: the body builds the copy (via `Canvas.copy`) and
assigns `new.styles`, but it has no `return` statement, so the caller
receives Python `None`. -/
def SCanvas.copy (_c : SCanvas) : Option SCanvas := none

/-- `StylizedCanvas.copy_line_part`: `super().copy_line_part(...)` then
copy the style region. -/
def SCanvas.copy_line_part (c : SCanvas) (dest : SCanvas) (y dest_y x : Nat) :
    Except String SCanvas := do
  let dest' ← (c.chars.copy_line_part dest.chars y dest_y x).map dest.withChars
  let stylePart ← c.get_style_line_part y x dest'.w
  dest'.set_style_line dest_y stylePart

/-- `Canvas.sub` as run on a `StylizedCanvas`: the identity region returns
`self.copy()` — which is `None` — and other regions build a fresh
`StylizedCanvas` through the overridden `copy_line_part`. -/
def SCanvas.sub (c : SCanvas) (x y w h : Nat) : Except String (Option SCanvas) :=
  if x < c.w ∧ y < c.h ∧ w ≤ c.w - x ∧ h ≤ c.h - y then
    if x = 0 ∧ y = 0 ∧ w = c.w ∧ h = c.h then Except.ok c.copy
    else
      ((List.range h).foldlM (fun new i => c.copy_line_part new (y + i) i x)
        (SCanvas.init w h)).map some
  else Except.error "AssertionError"

/-! ### Canvas size invariant -/

/-- Claim C6's invariant: exactly `h` rows of exactly `w` cells. -/
def Canvas.inv (c : Canvas) : Prop :=
  c.data.length = c.h ∧ ∀ r ∈ c.data, r.length = c.w

instance (c : Canvas) : Decidable c.inv := by
  unfold Canvas.inv; exact inferInstance

/-- The stylized invariant: additionally exactly `h` style rows of exactly
`w` entries. -/
def SCanvas.inv (c : SCanvas) : Prop :=
  c.data.length = c.h ∧ (∀ r ∈ c.data, r.length = c.w) ∧
    c.styles.length = c.h ∧ ∀ r ∈ c.styles, r.length = c.w

instance (c : SCanvas) : Decidable c.inv := by
  unfold SCanvas.inv; exact inferInstance

/-- Size invariant together with the (preserved) dimension fields; used to
transport the invariant through sequences of operations. -/
def Canvas.invWH (w h : Nat) (c : Canvas) : Prop := c.w = w ∧ c.h = h ∧ c.inv

/-- Stylized analogue of `Canvas.invWH`. -/
def SCanvas.invWH (w h : Nat) (c : SCanvas) : Prop := c.w = w ∧ c.h = h ∧ c.inv

/-! ## Terminal output side (src/terminal.py)

The state a property-cached toggle touches: the property cache
(`self.props`, insertion-ordered dict) and the tracked style bitmask
(`self.current_style`, `None` until first use).  Output is the list of
control strings passed to `write`. -/

def ESCc : Char := '\x1b'

def ESC_s : String := "\x1b"

def CSI_s : String := "\x1b["

structure OutTerm where
  props : List (String × Bool)
  current_style : Option Int
deriving DecidableEq, Repr

/-- Insertion-ordered dict update `self.props[name] = value`. -/
def setPropList (ps : List (String × Bool)) (name : String) (v : Bool) :
    List (String × Bool) :=
  if (ps.lookup name).isSome then ps.map (fun p => if p.1 == name then (p.1, v) else p)
  else ps ++ [(name, v)]

/-- `Terminal.get_prop`: `self.props.get(name)`. -/
def OutTerm.get_prop (ot : OutTerm) (name : String) : Option Bool := ot.props.lookup name

/-- `Terminal.set_prop`: returns `False` (and leaves the cache unchanged)
when the cached value already equals the requested one, else stores it and
returns `True`. -/
def OutTerm.set_prop (ot : OutTerm) (name : String) (value : Bool) : OutTerm × Bool :=
  if ot.get_prop name = some value then (ot, false)
  else ({ ot with props := setPropList ot.props name value }, true)

/-- `Terminal.reset`: a no-op when the tracked style is already `0`
(`None == 0` is false in Python, so a fresh terminal does emit). -/
def Terminal.reset (ot : OutTerm) : OutTerm × List String :=
  if ot.current_style = some 0 then (ot, [])
  else ({ ot with current_style := some 0 }, [CSI_s ++ "0m"])

/-- The wrapper produced by the `Terminal.term_prop` decorator:
`if self.set_prop(name, value) or force: return func(self, ...)`. -/
def term_gate (ot : OutTerm) (name : String) (value : Bool) (force : Bool)
    (body : OutTerm → OutTerm × List String) : OutTerm × List String :=
  let r := ot.set_prop name value
  if r.2 || force then body r.1 else (r.1, [])

/-- `enable_mouse_tracking` (name and value derived by `term_prop` from the
`enable_` prefix). -/
def enable_mouse_tracking (ot : OutTerm) (force : Bool := false) : OutTerm × List String :=
  term_gate ot "mouse_tracking" true force (fun o => (o, [CSI_s ++ "?1002h"]))

def disable_mouse_tracking (ot : OutTerm) (force : Bool := false) : OutTerm × List String :=
  term_gate ot "mouse_tracking" false force (fun o => (o, [CSI_s ++ "?1002l"]))

def enable_bracketed_paste (ot : OutTerm) (force : Bool := false) : OutTerm × List String :=
  term_gate ot "bracketed_paste" true force (fun o => (o, [CSI_s ++ "?2004h"]))

def disable_bracketed_paste (ot : OutTerm) (force : Bool := false) : OutTerm × List String :=
  term_gate ot "bracketed_paste" false force (fun o => (o, [CSI_s ++ "?2004l"]))

/-- `set_cursor_visible`, decorated `@term_prop("cursor_visible", True)`. -/
def set_cursor_visible (ot : OutTerm) (force : Bool := false) : OutTerm × List String :=
  term_gate ot "cursor_visible" true force (fun o => (o, [CSI_s ++ "?25h"]))

def set_cursor_invisible (ot : OutTerm) (force : Bool := false) : OutTerm × List String :=
  term_gate ot "cursor_visible" false force (fun o => (o, [CSI_s ++ "?25l"]))

/-- `enable_alternative_screen`: `save_cursor_pos()`, mode switch, `reset()`,
`clear_screen()`. -/
def enable_alternative_screen (ot : OutTerm) (force : Bool := false) : OutTerm × List String :=
  term_gate ot "alternative_screen" true force (fun o =>
    let r := Terminal.reset o
    (r.1, [CSI_s ++ "s", CSI_s ++ "?1049h"] ++ r.2 ++ [CSI_s ++ "2J"]))

def disable_alternative_screen (ot : OutTerm) (force : Bool := false) : OutTerm × List String :=
  term_gate ot "alternative_screen" false force (fun o =>
    (o, [CSI_s ++ "?1049l", CSI_s ++ "u"]))

/-! ## Terminal input decoder (src/terminal.py)

The decoder runs in the reader thread.  Its state is the event queue, the
property cache (it reads `"mouse_tracking"`), the bracketed-paste state,
`self.last_key` (a `monotonic()` timestamp; time is modelled exactly, in
integer milliseconds — `ALT_TIMEOUT` 0.4 s = 400 ms — with `0` for the
falsy initial `None`/`0.0`), and the running flag.  Input is
the list of bytes currently available; `get_key` takes the head and an
empty list means `get_key` would block (`"BlockedOnInput"` — never reached
in the claims' scenarios).  Raised exceptions carry the current state, as
the queue mutations made before the raise persist. -/

def ALT_TIMEOUT : Int := 400

def SS3_KEYS : List (Char × String) := [('P', "f1"), ('Q', "f2"), ('R', "f3"), ('S', "f4")]

def KEYS : List (Option String) :=
  [some "home", some "insert", some "delete", some "end", some "pageup", some "pagedown",
   some "home", some "end", none, none,
   some "f1", some "f2", some "f3", some "f4", some "f5", none,
   some "f6", some "f7", some "f8", some "f9", some "f10", none,
   some "f11", some "f12", some "f13", some "f14", none,
   some "f15", some "f16", none,
   some "f17", some "f18", some "f19", some "f20", none]

structure TermState where
  queue : List Event
  props : List (String × Bool)
  pasting : Bool
  paste_text : Option (List Char)
  lastKey : Int
  running : Bool
  cursorPos : List Int
deriving DecidableEq, Repr

/-- `Eventable.call_event` as invoked on the Terminal. -/
def TermState.call_event (st : TermState) (type : String) (args : List EvArg) : TermState :=
  { st with queue := call_event_queue st.queue type args }

/-- Python `str.isdecimal()` on the ASCII range. -/
def pyIsDecimal (l : List Char) : Bool := !l.isEmpty && l.all Char.isDigit

/-- `int(s)` for a decimal digit string. -/
def digitsToNat (l : List Char) : Nat := l.foldl (fun acc c => acc * 10 + (c.toNat - 48)) 0

/-- Python `a & m` for an arbitrary int `a` and a mask `m < 256`: the mask
reads only the low 8 bits, which in two's complement are the bits of
`a mod 256`. -/
def pyAnd8 (a : Int) (m : Nat) : Int := ((a.emod 256).toNat &&& m : Nat)

/-- `Terminal.parse_mouse_event`: `[button & 67, x-1, y-1, button & 60]`
with `button/x/y = ord(byte) - 32`. -/
def parse_mouse_event (a0 a1 a2 : Char) : List EvArg :=
  let button : Int := (a0.toNat : Int) - 32
  let x : Int := (a1.toNat : Int) - 32
  let y : Int := (a2.toNat : Int) - 32
  [.n (pyAnd8 button 67), .n (x - 1), .n (y - 1), .n (pyAnd8 button 60)]

/-- `Terminal.csi_command(args, command)`.  `command.upper()` folds
lower-case terminators onto the same table; `'~'` looks `int(args)` up in
`KEYS` — note Python's `KEYS[int(args)-1]`, where `n = 0` indexes the last
entry (`None`) from the end — or toggles bracketed-paste capture for
200/201; `'R'` parses `args.split(';')` as ints (raising `ValueError` on a
malformed report); anything else is logged and dropped. -/
def csi_command (st : TermState) (args : List Char) (command : Char) :
    TermState × Option String :=
  let command := command.toUpper
  if command = 'A' then (st.call_event "key" [.s "up"], none)
  else if command = 'B' then (st.call_event "key" [.s "down"], none)
  else if command = 'C' then (st.call_event "key" [.s "right"], none)
  else if command = 'D' then (st.call_event "key" [.s "left"], none)
  else if command = 'F' then (st.call_event "key" [.s "end"], none)
  else if command = 'H' then (st.call_event "key" [.s "home"], none)
  else if command = '~' then
    if ¬ pyIsDecimal args then (st, none)
    else
      let n := digitsToNat args
      if n < KEYS.length then
        match (if n = 0 then KEYS.getLastD none else KEYS.getD (n - 1) none) with
        | some k => (st.call_event "key" [.s k], none)
        | none => (st, none)
      else if n = 200 then
        (({ st with pasting := true, paste_text := some [] }).call_event "paste_begin" [],
          none)
      else if n = 201 then
        let arg := match st.paste_text with
          | some txt => EvArg.s (String.mk txt)
          | none => EvArg.pynone
        ({ ({ st with pasting := false }).call_event "paste" [arg] with paste_text := none },
          none)
      else (st, none)
  else if command = 'R' then
    if (pySplit ';' args).all pyIsDecimal then
      let ns := (pySplit ';' args).map (fun p => (digitsToNat p : Int))
      (({ st with cursorPos := ns }).call_event "cursor_pos" [.ns ns], none)
    else (st, some "ValueError")
  else (st, none)

/-- The accumulation loop of `Terminal.parse_csi`:
`while not (args[-1].isalpha() or args[-1] == '~')` append the next byte;
once `len(args) > 10`, emit a literal ESC key event and then evaluate
`self.call_event("key", c)` — but `c` is the replay-loop variable, not yet
assigned, so the interpreter raises `UnboundLocalError` and the remaining
replay never runs.  On a terminator, the loop's `else:` runs
`csi_command(args[:-1], args[-1])`.  (`args` is never empty, so the
`getLastD` default is never read; the loop guard is evaluated before any
byte is read, and is duplicated across the two input cases only so the
recursion is structural in the input list.) -/
def csiLoop (st : TermState) : List Char → List Char → TermState × List Char × Option String
  | args, [] =>
    if (args.getLastD '?').isAlpha || args.getLastD '?' == '~' then
      let r := csi_command st args.dropLast (args.getLastD '?')
      (r.1, [], r.2)
    else (st, [], some "BlockedOnInput")
  | args, c :: rest =>
    if (args.getLastD '?').isAlpha || args.getLastD '?' == '~' then
      let r := csi_command st args.dropLast (args.getLastD '?')
      (r.1, c :: rest, r.2)
    else
      let args' := args ++ [c]
      if args'.length > 10 then
        (st.call_event "key" [.s ESC_s], rest, some "UnboundLocalError: c")
      else csiLoop st args' rest

/-- `Terminal.parse_csi`: a leading `M` switches to 3-byte mouse-report
decoding (dropped with a log message if mouse tracking is not enabled —
`if not self.get_prop("mouse_tracking")` treats a missing entry as falsy);
otherwise the CSI accumulation loop runs. -/
def parse_csi (st : TermState) (input : List Char) :
    TermState × List Char × Option String :=
  match input with
  | [] => (st, [], some "BlockedOnInput")
  | a :: rest =>
    if a = 'M' then
      if ¬ ((st.props.lookup "mouse_tracking").getD false) then (st, rest, none)
      else
        match rest with
        | b :: x :: y :: rest' =>
          (st.call_event "mouse" (parse_mouse_event b x y), rest', none)
        | _ => (st, [], some "BlockedOnInput")
    else csiLoop st [a] rest

/-- `Terminal.parse_ss3`: an unknown follow-up byte is logged and dropped. -/
def parse_ss3 (st : TermState) (input : List Char) :
    TermState × List Char × Option String :=
  match input with
  | [] => (st, [], some "BlockedOnInput")
  | c :: rest =>
    match SS3_KEYS.lookup c with
    | some k => (st.call_event "key" [.s k], rest, none)
    | none => (st, rest, none)

/-- Result of one `Terminal.get_chars` step: updated state, remaining
input, a propagated exception (caught by `loop_get_chars`), and the
method's return value (`none` both for the `not running` early return and
when an exception propagates). -/
structure GCRes where
  st : TermState
  rest : List Char
  exc : Option String
  ret : Option Bool
deriving DecidableEq, Repr

/-- The `match c:` statement at the end of `Terminal.get_chars`, factored
out: `st1` is the state after `self.last_key = t`, `lie` the (possibly
timeout-cleared) `last_is_escape`, and `c1` the already-`\r`-converted
byte.  After an ESC, `[`/`O` route to CSI/SS3 parsing and anything else is
an alt-modified key; otherwise the byte feeds the paste buffer while
pasting (`paste_text += c` raises `TypeError` if the buffer is `None`,
which never happens while `pasting` is set) or becomes a plain key
event. -/
def gc_match (st1 : TermState) (lie : Bool) (c1 : Char) (rest : List Char) : GCRes :=
  if lie then
    if c1 = '[' then
      let r := parse_csi st1 rest
      ⟨r.1, r.2.1, r.2.2, if r.2.2.isSome then none else some false⟩
    else if c1 = 'O' then
      let r := parse_ss3 st1 rest
      ⟨r.1, r.2.1, r.2.2, if r.2.2.isSome then none else some false⟩
    else
      ⟨st1.call_event "key" [.s (String.mk [c1]), .b true], rest, none, some false⟩
  else
    if st1.pasting then
      match st1.paste_text with
      | some pt => ⟨{ st1 with paste_text := some (pt ++ [c1]) }, rest, none, some false⟩
      | none => ⟨st1, rest, some "TypeError", none⟩
    else ⟨st1.call_event "key" [.s (String.mk [c1])], rest, none, some false⟩

/-- `Terminal.get_chars(last_is_escape)`: read one byte non-blockingly
(`none` when nothing is available) together with the current time `t`;
bail out if not running; emit a bare ESC key event when a previously seen
ESC has aged past `ALT_TIMEOUT` with no follow-up; then dispatch the byte:
ESC starts a new escape, `\r` is converted to `\n`, `[`/`O` after an ESC
route to CSI/SS3 parsing, any other byte after an ESC is an alt-modified
key, and otherwise the byte feeds the paste buffer (while pasting) or
becomes a plain key event.  (The `UnicodeDecodeError` early return for a
partial UTF-8 read is not modelled: input here is a byte = `Char` list.) -/
def get_chars (st : TermState) (lastIsEscape : Bool) (input : List Char) (t : Int) : GCRes :=
  let c : Option Char := input.head?
  let rest := input.tail
  if ¬ st.running then ⟨st, rest, none, none⟩
  else
    let ti : Int := if st.lastKey ≠ 0 then t - st.lastKey else 0
    let stE := if lastIsEscape ∧ ti ≥ ALT_TIMEOUT then st.call_event "key" [.s ESC_s] else st
    let lie := if lastIsEscape ∧ ti ≥ ALT_TIMEOUT then false else lastIsEscape
    match c with
    | none => ⟨stE, rest, none, some lie⟩
    | some c0 =>
      let st1 := { stE with lastKey := t }
      if c0 = ESCc then ⟨st1, rest, none, some true⟩
      else gc_match st1 lie (if c0 = '\r' then '\n' else c0) rest

/-- A key event that is exactly a bare (non-alt) ESC key press. -/
def notBareEsc : Event → Bool
  | ⟨"key", [EvArg.s k, EvArg.b false]⟩ => k != ESC_s
  | _ => true

/-- Claim C10's per-event property: a key event does not carry `"\r"`, and
a paste event's text does not contain `'\r'`. -/
def evNoCR : Event → Bool
  | ⟨"key", EvArg.s k :: _⟩ => k != "\r"
  | ⟨"paste", [EvArg.s s]⟩ => !(s.toList.contains '\r')
  | _ => true

/-- Claim C10's state invariant: the accumulated bracketed-paste text
contains no carriage return. -/
def noCRstate (st : TermState) : Prop :=
  ∀ pt, st.paste_text = some pt → '\r' ∉ pt

/-! ## Theorems -/

theorem loadEvent_error (e : String) : loadEvent "error" [.exc e] = ⟨"error", [EvArg.exc e]⟩ := rfl

/-- C1: failing input for the listener-dispatch claim.  With listeners
registered in order `L1` (id 1, `auto_remove=True`) and `L2` (id 2) on
matcher `"x"`, dispatching one matching event invokes only `L1`: the
shallow `self.listeners.copy()` shares the inner list, so the
`remove` performed for `L1` shifts `L2` under the live iterator and the
iteration skips it — `L2` is still registered afterwards but was never
invoked, contradicting "removal during iteration must not corrupt
iteration". -/
theorem C1_auto_remove_skips_next_listener :
    (handle_event ⟨[], [("x", [(⟨1, none⟩, true), (⟨2, none⟩, false)])], []⟩
        (loadEvent "x" [])).trace = [1] ∧
    (handle_event ⟨[], [("x", [(⟨1, none⟩, true), (⟨2, none⟩, false)])], []⟩
        (loadEvent "x" [])).listeners = [("x", [(⟨2, none⟩, false)])] := by
  decide

/-- C2: a callback that raises `e` while handling an event whose type is
not `"error"` causes exactly one `error` event carrying `e` to be
enqueued (not two); if the event being handled is itself an `error`
event, nothing is enqueued; and dispatch continues with the remaining
listeners — with the raising callback first and any second listener
registered after it, both are invoked, in order. -/
theorem C2_callback_exception_isolation (q : List Event) (cb : Callback) (e : String)
    (hcb : cb.raises = some e) (ev : Event) :
    (ev.type ≠ "error" →
      exec_callback q cb ev = (q ++ [Event.mk "error" [EvArg.exc e]], false)) ∧
    (ev.type = "error" → exec_callback q cb ev = (q, false)) ∧
    (∀ (cb2 : Callback) (k : String), ev.matchStr k = true →
      (handle_event ⟨q, [(k, [(cb, false), (cb2, false)])], []⟩ ev).trace = [cb.id, cb2.id]) := by
  refine ⟨fun h => ?_, fun h => ?_, fun cb2 k hk => ?_⟩
  · simp [exec_callback, hcb, CATCH_EXCEPTIONS, call_event_queue, h, loadEvent_error]
  · simp [exec_callback, hcb, CATCH_EXCEPTIONS, h]
  · simp [handle_event, handleEventGo, hk, iterListeners, lookupListeners, List.lookup,
      exec_callback, setListeners]

/-- Witness for C2 at a concrete input: callback id 1 raising `"boom"`
while handling an `"x"` event enqueues exactly one error event, and a
second listener id 2 still runs after it. -/
theorem C2_witness :
    exec_callback [] ⟨1, some "boom"⟩ (loadEvent "x" []) =
      ([Event.mk "error" [EvArg.exc "boom"]], false) ∧
    (handle_event ⟨[], [("x", [(⟨1, some "boom"⟩, false), (⟨2, none⟩, false)])], []⟩
        (loadEvent "x" [])).trace = [1, 2] := by
  have h := C2_callback_exception_isolation [] ⟨1, some "boom"⟩ "boom" rfl (loadEvent "x" [])
  exact ⟨by simpa using h.1 (by decide), by simpa using h.2.2 ⟨2, none⟩ "x" (by decide)⟩

theorem qrun_invariant (acts : List QAct) (s : QSt) :
    (acts.foldl qstep s).consumed ++ (acts.foldl qstep s).queue =
      s.consumed ++ s.queue ++ producedEvents acts := by
  induction acts generalizing s with
  | nil => simp [producedEvents]
  | cons a r ih =>
    cases a with
    | produce e =>
      simp only [List.foldl_cons, producedEvents, qstep]
      rw [ih]
      simp
    | consume =>
      simp only [List.foldl_cons, producedEvents, qstep]
      cases hq : s.queue with
      | nil => rw [ih]; simp [hq]
      | cons e q => rw [ih]; simp [hq]

/-- C9: with one producer appending via `call_event` and one consumer
popping via `handle_events` running concurrently — i.e. under every
interleaving `acts` of atomic append/pop actions on the shared queue —
appending is enabled in every state (never blocks), and the events popped
so far followed by the events still queued are exactly the produced
events in order: nothing is lost, nothing is duplicated, and consumption
order is producer FIFO order. -/
theorem C9_queue_fifo_exactly_once :
    (∀ s e, qstep s (QAct.produce e) = { s with queue := s.queue ++ [e] }) ∧
    (∀ acts : List QAct,
      (qrun acts).consumed ++ (qrun acts).queue = producedEvents acts) := by
  refine ⟨fun s e => rfl, fun acts => ?_⟩
  have h := qrun_invariant acts ⟨[], []⟩
  simpa [qrun] using h

theorem except_map_ok {α β : Type} {f : α → β} {r : Except String α} {b : β}
    (h : r.map f = Except.ok b) : ∃ a, r = Except.ok a ∧ b = f a := by
  cases r with
  | error e => simp [Except.map] at h
  | ok a => exact ⟨a, rfl, by simpa [Except.map] using h.symm⟩

theorem pyGet_mem {α : Type} {l : List α} {i : Nat} {a : α}
    (h : pyGet l i = Except.ok a) : a ∈ l := by
  unfold pyGet at h
  cases hg : l.get? i with
  | none => rw [hg] at h; cases h
  | some b => rw [hg] at h; cases h; exact List.get?_mem hg

theorem inv_of_set {c : Canvas} {y : Nat} {line : List Char} (hinv : c.inv)
    (hl : line.length = c.w) : Canvas.inv { c with data := c.data.set y line } := by
  refine ⟨by simpa using hinv.1, ?_⟩
  intro r hr
  rcases List.mem_or_eq_of_mem_set hr with h | h
  · exact hinv.2 r h
  · simpa [h] using hl

theorem set_line_invWH {w h : Nat} {c c' : Canvas} {y : Nat} {line : List Char}
    (hc : c.invWH w h) (hok : c.set_line y line = Except.ok c') : c'.invWH w h := by
  unfold Canvas.set_line at hok
  split at hok
  · split at hok
    · rename_i hcond _
      cases hok
      exact ⟨hc.1, hc.2.1, inv_of_set hc.2.2 hcond.2⟩
    · cases hok
  · cases hok

theorem set_line_part_invWH {w h : Nat} {c c' : Canvas} {y x : Nat} {part : List Char}
    (hc : c.invWH w h) (hok : c.set_line_part y x part = Except.ok c') : c'.invWH w h := by
  unfold Canvas.set_line_part at hok
  split at hok
  · cases hok; exact hc
  · split at hok
    · cases hg : c.get_line y with
      | error e => rw [hg] at hok; simp only [Bind.bind, Except.bind] at hok; cases hok
      | ok l =>
        rw [hg] at hok
        simp only [Bind.bind, Except.bind] at hok
        exact set_line_invWH hc hok
    · cases hok

theorem foldlM_except_inv {σ β : Type} (P : σ → Prop) (f : σ → β → Except String σ)
    (hf : ∀ s b s', P s → f s b = Except.ok s' → P s') :
    ∀ (l : List β) (s s' : σ), P s → List.foldlM f s l = Except.ok s' → P s' := by
  intro l
  induction l with
  | nil =>
    intro s s' hs hok
    rw [List.foldlM_nil] at hok
    cases hok
    exact hs
  | cons b t ih =>
    intro s s' hs hok
    rw [List.foldlM_cons] at hok
    cases hb : f s b with
    | error e => rw [hb] at hok; simp only [Bind.bind, Except.bind] at hok; cases hok
    | ok s1 =>
      rw [hb] at hok
      simp only [Bind.bind, Except.bind] at hok
      exact ih s1 s' (hf s b s1 hs hb) hok

theorem set_at_invWH {w h : Nat} {c c' : Canvas} {x y : Nat} {ch : Char}
    (hc : c.invWH w h) (hok : c.set_at x y ch = Except.ok c') : c'.invWH w h := by
  unfold Canvas.set_at at hok
  exact set_line_part_invWH hc hok

theorem write_at_invWH {w h : Nat} {c c' : Canvas} {x y : Nat} {text : List Char}
    (hc : c.invWH w h) (hok : c.write_at x y text = Except.ok c') : c'.invWH w h := by
  unfold Canvas.write_at at hok
  cases hs : c.split_text x y text with
  | error e => rw [hs] at hok; simp only [Bind.bind, Except.bind] at hok; cases hok
  | ok ps =>
    rw [hs] at hok
    simp only [Bind.bind, Except.bind] at hok
    exact foldlM_except_inv (Canvas.invWH w h) _
      (fun s p s' hs' hb => set_line_part_invWH hs' hb) ps c c' hc hok

theorem fill_invWH {w h : Nat} {c c' : Canvas} {ch : Char}
    (hc : c.invWH w h) (hok : c.fill ch = Except.ok c') : c'.invWH w h := by
  unfold Canvas.fill at hok
  exact foldlM_except_inv (Canvas.invWH w h) _
    (fun s y s' hs' hb => set_line_invWH hs' hb) _ c c' hc hok

theorem clear_invWH {w h : Nat} {c c' : Canvas}
    (hc : c.invWH w h) (hok : c.clear = Except.ok c') : c'.invWH w h := by
  unfold Canvas.clear at hok
  exact fill_invWH hc hok

theorem blit_line_part_invWH {w h : Nat} {c c' src : Canvas} {y sy x : Nat}
    (hc : c.invWH w h) (hok : c.blit_line_part src y sy x = Except.ok c') : c'.invWH w h := by
  unfold Canvas.blit_line_part at hok
  split at hok
  · cases hg : src.get_line sy with
    | error e => rw [hg] at hok; simp only [Bind.bind, Except.bind] at hok; cases hok
    | ok line =>
      rw [hg] at hok
      simp only [Bind.bind, Except.bind] at hok
      exact set_line_part_invWH hc hok
  · cases hok

theorem blit_invWH {w h : Nat} {c c' src : Canvas} {x y : Nat}
    (hc : c.invWH w h) (hok : c.blit src x y = Except.ok c') : c'.invWH w h := by
  unfold Canvas.blit at hok
  split at hok
  · exact foldlM_except_inv (Canvas.invWH w h) _
      (fun s i s' hs' hb => blit_line_part_invWH hs' hb) _ c c' hc hok
  · cases hok

theorem rect_invWH {w h : Nat} {c c' : Canvas} {x y rw rh : Nat} {ch : Char}
    (hc : c.invWH w h) (hok : c.rect x y rw rh ch = Except.ok c') : c'.invWH w h := by
  unfold Canvas.rect at hok
  exact blit_invWH hc hok

theorem chars_invWH {w h : Nat} {c : SCanvas} (hc : c.invWH w h) : c.chars.invWH w h :=
  ⟨hc.1, hc.2.1, hc.2.2.1, hc.2.2.2.1⟩

theorem withChars_invWH {w h : Nat} {c : SCanvas} {cv : Canvas} (hc : c.invWH w h)
    (hcv : cv.invWH w h) : (c.withChars cv).invWH w h := by
  refine ⟨hc.1, hc.2.1, ?_, ?_, hc.2.2.2.2.1, hc.2.2.2.2.2⟩
  · show cv.data.length = c.h
    rw [hcv.2.2.1, hcv.2.1, hc.2.1]
  · intro r hr
    show r.length = c.w
    rw [hcv.2.2.2 r hr, hcv.1, hc.1]

theorem lift_invWH {w h : Nat} {c c' : SCanvas} {r : Except String Canvas}
    (hc : c.invWH w h) (hr : ∀ cv, r = Except.ok cv → cv.invWH w h)
    (hok : r.map c.withChars = Except.ok c') : c'.invWH w h := by
  obtain ⟨cv, hcv, hb⟩ := except_map_ok hok
  subst hb
  exact withChars_invWH hc (hr cv hcv)

theorem sset_line_invWH {w h : Nat} {c c' : SCanvas} {y : Nat} {line : List Char}
    (hc : c.invWH w h) (hok : c.set_line y line = Except.ok c') : c'.invWH w h :=
  lift_invWH hc (fun _ hcv => set_line_invWH (chars_invWH hc) hcv) hok

theorem sset_line_part_invWH {w h : Nat} {c c' : SCanvas} {y x : Nat} {part : List Char}
    (hc : c.invWH w h) (hok : c.set_line_part y x part = Except.ok c') : c'.invWH w h :=
  lift_invWH hc (fun _ hcv => set_line_part_invWH (chars_invWH hc) hcv) hok

theorem sset_at_invWH {w h : Nat} {c c' : SCanvas} {x y : Nat} {ch : Char}
    (hc : c.invWH w h) (hok : c.set_at x y ch = Except.ok c') : c'.invWH w h :=
  lift_invWH hc (fun _ hcv => set_at_invWH (chars_invWH hc) hcv) hok

theorem swrite_at_invWH {w h : Nat} {c c' : SCanvas} {x y : Nat} {text : List Char}
    (hc : c.invWH w h) (hok : c.write_at x y text = Except.ok c') : c'.invWH w h :=
  lift_invWH hc (fun _ hcv => write_at_invWH (chars_invWH hc) hcv) hok

theorem sfill_invWH {w h : Nat} {c c' : SCanvas} {ch : Char}
    (hc : c.invWH w h) (hok : c.fill ch = Except.ok c') : c'.invWH w h :=
  lift_invWH hc (fun _ hcv => fill_invWH (chars_invWH hc) hcv) hok

theorem inv_of_set_style {c : SCanvas} {y : Nat} {style : List Int} (hinv : c.inv)
    (hl : style.length = c.w) : SCanvas.inv { c with styles := c.styles.set y style } := by
  refine ⟨hinv.1, hinv.2.1, by simpa using hinv.2.2.1, ?_⟩
  intro r hr
  rcases List.mem_or_eq_of_mem_set hr with h | h
  · exact hinv.2.2.2 r h
  · simpa [h] using hl

theorem sset_style_line_invWH {w h : Nat} {c c' : SCanvas} {y : Nat} {style : List Int}
    (hc : c.invWH w h) (hok : c.set_style_line y style = Except.ok c') : c'.invWH w h := by
  unfold SCanvas.set_style_line at hok
  split at hok
  · split at hok
    · rename_i hcond _
      cases hok
      exact ⟨hc.1, hc.2.1, inv_of_set_style hc.2.2 hcond.2⟩
    · cases hok
  · cases hok

theorem sset_style_line_part_invWH {w h : Nat} {c c' : SCanvas} {y x : Nat} {part : List Int}
    (hc : c.invWH w h) (hok : c.set_style_line_part y x part = Except.ok c') : c'.invWH w h := by
  unfold SCanvas.set_style_line_part at hok
  split at hok
  · cases hok; exact hc
  · split at hok
    · cases hg : c.get_style_line y with
      | error e => rw [hg] at hok; simp only [Bind.bind, Except.bind] at hok; cases hok
      | ok l =>
        rw [hg] at hok
        simp only [Bind.bind, Except.bind] at hok
        exact sset_style_line_invWH hc hok
    · cases hok

theorem sset_style_at_invWH {w h : Nat} {c c' : SCanvas} {x y : Nat} {style : Int}
    (hc : c.invWH w h) (hok : c.set_style_at x y style = Except.ok c') : c'.invWH w h := by
  unfold SCanvas.set_style_at at hok
  exact sset_style_line_part_invWH hc hok

theorem sfill_style_invWH {w h : Nat} {c c' : SCanvas} {style : Int}
    (hc : c.invWH w h) (hok : c.fill_style style = Except.ok c') : c'.invWH w h := by
  unfold SCanvas.fill_style at hok
  exact foldlM_except_inv (SCanvas.invWH w h) _
    (fun s y s' hs' hb => sset_style_line_invWH hs' hb) _ c c' hc hok

theorem sclear_style_invWH {w h : Nat} {c c' : SCanvas}
    (hc : c.invWH w h) (hok : c.clear_style = Except.ok c') : c'.invWH w h := by
  unfold SCanvas.clear_style at hok
  exact sfill_style_invWH hc hok

theorem sclear_invWH {w h : Nat} {c c' : SCanvas}
    (hc : c.invWH w h) (hok : c.clear = Except.ok c') : c'.invWH w h := by
  unfold SCanvas.clear at hok
  cases hf : (c.chars.fill DEFAULT_CHAR).map c.withChars with
  | error e => rw [hf] at hok; simp only [Bind.bind, Except.bind] at hok; cases hok
  | ok c1 =>
    rw [hf] at hok
    simp only [Bind.bind, Except.bind] at hok
    exact sclear_style_invWH
      (lift_invWH hc (fun _ hcv => fill_invWH (chars_invWH hc) hcv) hf) hok

theorem sblit_line_part_invWH {w h : Nat} {c c' src : SCanvas} {y sy x : Nat}
    (hc : c.invWH w h) (hok : c.blit_line_part src y sy x = Except.ok c') : c'.invWH w h := by
  unfold SCanvas.blit_line_part at hok
  cases hf : (c.chars.blit_line_part src.chars y sy x).map c.withChars with
  | error e => rw [hf] at hok; simp only [Bind.bind, Except.bind] at hok; cases hok
  | ok c1 =>
    rw [hf] at hok
    simp only [Bind.bind, Except.bind] at hok
    have hc1 : c1.invWH w h :=
      lift_invWH hc (fun _ hcv => blit_line_part_invWH (chars_invWH hc) hcv) hf
    cases hg : src.get_style_line sy with
    | error e => rw [hg] at hok; simp only [Bind.bind, Except.bind] at hok; cases hok
    | ok styleLine =>
      rw [hg] at hok
      simp only [Bind.bind, Except.bind] at hok
      exact sset_style_line_part_invWH hc1 hok

theorem sblit_invWH {w h : Nat} {c c' src : SCanvas} {x y : Nat}
    (hc : c.invWH w h) (hok : c.blit src x y = Except.ok c') : c'.invWH w h := by
  unfold SCanvas.blit at hok
  split at hok
  · exact foldlM_except_inv (SCanvas.invWH w h) _
      (fun s i s' hs' hb => sblit_line_part_invWH hs' hb) _ c c' hc hok
  · cases hok

theorem srect_invWH {w h : Nat} {c c' : SCanvas} {x y rw rh : Nat} {ch : Char} {style : Int}
    (hc : c.invWH w h) (hok : c.rect x y rw rh ch style = Except.ok c') : c'.invWH w h := by
  unfold SCanvas.rect at hok
  exact sblit_invWH hc hok

/-- C5: failing inputs for the `sub` claim.  (1) On a 2×3 canvas the
in-bounds region `sub(0,0,1,3)` raises `AssertionError`: `copy_line_part`'s
third assert compares the destination row index with the destination
*width* (`dest.w`, a slip for `dest.h`), so any region with `h' > w' + 1`
crashes instead of returning the sub-canvas.  (2) On a `StylizedCanvas`
even the identity region `sub(0,0,w,h)` returns `None` because
`StylizedCanvas.copy` has no `return` statement.  (3) For comparison, a
region with `h' ≤ w' + 1` does return the correct independent sub-grid. -/
theorem C5_sub_assert_typo_and_missing_return :
    (Canvas.init 2 3).sub 0 0 1 3 = Except.error "AssertionError" ∧
    (SCanvas.init 2 2).sub 0 0 2 2 = Except.ok none ∧
    (Canvas.mk 3 2 [['a', 'b', 'c'], ['d', 'e', 'f']]).sub 1 0 2 2 =
      Except.ok ⟨2, 2, [['b', 'c'], ['e', 'f']]⟩ := by
  decide

/-- C6: every listed `Canvas` operation and every `StylizedCanvas` variant
preserves the size invariant — exactly `h` rows of exactly `w` one-character
cells (and, for the stylized variant, exactly `w` style entries in each of
`h` style rows) — whenever it completes without raising. -/
theorem C6_operations_preserve_size_invariant :
    (∀ (c c' : Canvas) (x y : Nat) (ch : Char),
      c.inv → c.set_at x y ch = Except.ok c' → c'.inv) ∧
    (∀ (c c' : Canvas) (y : Nat) (line : List Char),
      c.inv → c.set_line y line = Except.ok c' → c'.inv) ∧
    (∀ (c c' : Canvas) (y x : Nat) (part : List Char),
      c.inv → c.set_line_part y x part = Except.ok c' → c'.inv) ∧
    (∀ (c c' : Canvas) (x y : Nat) (text : List Char),
      c.inv → c.write_at x y text = Except.ok c' → c'.inv) ∧
    (∀ (c c' : Canvas) (ch : Char), c.inv → c.fill ch = Except.ok c' → c'.inv) ∧
    (∀ (c c' : Canvas), c.inv → c.clear = Except.ok c' → c'.inv) ∧
    (∀ (c c' src : Canvas) (x y : Nat), c.inv → c.blit src x y = Except.ok c' → c'.inv) ∧
    (∀ (c c' : Canvas) (x y rw rh : Nat) (ch : Char),
      c.inv → c.rect x y rw rh ch = Except.ok c' → c'.inv) ∧
    (∀ (c c' : SCanvas) (x y : Nat) (ch : Char),
      c.inv → c.set_at x y ch = Except.ok c' → c'.inv) ∧
    (∀ (c c' : SCanvas) (y : Nat) (line : List Char),
      c.inv → c.set_line y line = Except.ok c' → c'.inv) ∧
    (∀ (c c' : SCanvas) (y x : Nat) (part : List Char),
      c.inv → c.set_line_part y x part = Except.ok c' → c'.inv) ∧
    (∀ (c c' : SCanvas) (x y : Nat) (text : List Char),
      c.inv → c.write_at x y text = Except.ok c' → c'.inv) ∧
    (∀ (c c' : SCanvas) (ch : Char), c.inv → c.fill ch = Except.ok c' → c'.inv) ∧
    (∀ (c c' : SCanvas), c.inv → c.clear = Except.ok c' → c'.inv) ∧
    (∀ (c c' src : SCanvas) (x y : Nat), c.inv → c.blit src x y = Except.ok c' → c'.inv) ∧
    (∀ (c c' : SCanvas) (x y rw rh : Nat) (ch : Char) (style : Int),
      c.inv → c.rect x y rw rh ch style = Except.ok c' → c'.inv) ∧
    (∀ (c c' : SCanvas) (x y : Nat) (style : Int),
      c.inv → c.set_style_at x y style = Except.ok c' → c'.inv) ∧
    (∀ (c c' : SCanvas) (y : Nat) (style : List Int),
      c.inv → c.set_style_line y style = Except.ok c' → c'.inv) ∧
    (∀ (c c' : SCanvas) (y x : Nat) (part : List Int),
      c.inv → c.set_style_line_part y x part = Except.ok c' → c'.inv) ∧
    (∀ (c c' : SCanvas) (style : Int), c.inv → c.fill_style style = Except.ok c' → c'.inv) ∧
    (∀ (c c' : SCanvas), c.inv → c.clear_style = Except.ok c' → c'.inv) := by
  refine ⟨?_, ?_, ?_, ?_, ?_, ?_, ?_, ?_, ?_, ?_, ?_, ?_, ?_, ?_, ?_, ?_, ?_, ?_, ?_, ?_, ?_⟩
  · exact fun c c' x y ch hc hok => (set_at_invWH ⟨rfl, rfl, hc⟩ hok).2.2
  · exact fun c c' y line hc hok => (set_line_invWH ⟨rfl, rfl, hc⟩ hok).2.2
  · exact fun c c' y x part hc hok => (set_line_part_invWH ⟨rfl, rfl, hc⟩ hok).2.2
  · exact fun c c' x y text hc hok => (write_at_invWH ⟨rfl, rfl, hc⟩ hok).2.2
  · exact fun c c' ch hc hok => (fill_invWH ⟨rfl, rfl, hc⟩ hok).2.2
  · exact fun c c' hc hok => (clear_invWH ⟨rfl, rfl, hc⟩ hok).2.2
  · exact fun c c' src x y hc hok => (blit_invWH ⟨rfl, rfl, hc⟩ hok).2.2
  · exact fun c c' x y rw rh ch hc hok => (rect_invWH ⟨rfl, rfl, hc⟩ hok).2.2
  · exact fun c c' x y ch hc hok => (sset_at_invWH ⟨rfl, rfl, hc⟩ hok).2.2
  · exact fun c c' y line hc hok => (sset_line_invWH ⟨rfl, rfl, hc⟩ hok).2.2
  · exact fun c c' y x part hc hok => (sset_line_part_invWH ⟨rfl, rfl, hc⟩ hok).2.2
  · exact fun c c' x y text hc hok => (swrite_at_invWH ⟨rfl, rfl, hc⟩ hok).2.2
  · exact fun c c' ch hc hok => (sfill_invWH ⟨rfl, rfl, hc⟩ hok).2.2
  · exact fun c c' hc hok => (sclear_invWH ⟨rfl, rfl, hc⟩ hok).2.2
  · exact fun c c' src x y hc hok => (sblit_invWH ⟨rfl, rfl, hc⟩ hok).2.2
  · exact fun c c' x y rw rh ch style hc hok => (srect_invWH ⟨rfl, rfl, hc⟩ hok).2.2
  · exact fun c c' x y style hc hok => (sset_style_at_invWH ⟨rfl, rfl, hc⟩ hok).2.2
  · exact fun c c' y style hc hok => (sset_style_line_invWH ⟨rfl, rfl, hc⟩ hok).2.2
  · exact fun c c' y x part hc hok => (sset_style_line_part_invWH ⟨rfl, rfl, hc⟩ hok).2.2
  · exact fun c c' style hc hok => (sfill_style_invWH ⟨rfl, rfl, hc⟩ hok).2.2
  · exact fun c c' hc hok => (sclear_style_invWH ⟨rfl, rfl, hc⟩ hok).2.2

/-- Witness for C6 at a concrete input: `set_at` on a fresh 2×2 canvas
yields a canvas still satisfying the invariant. -/
theorem C6_witness :
    Canvas.inv (⟨2, 2, [['x', ' '], [' ', ' ']]⟩ : Canvas) :=
  C6_operations_preserve_size_invariant.1 (Canvas.init 2 2)
    ⟨2, 2, [['x', ' '], [' ', ' ']]⟩ 0 0 'x' (by decide) (by decide)

theorem dropWhile_space_eq {l : List Char} (hl : ∀ ch ∈ l, pyIsSpace ch → ch = ' ') :
    l.dropWhile pyIsSpace = l.dropWhile (· == DEFAULT_CHAR) := by
  induction l with
  | nil => rfl
  | cons a t ih =>
    have ht : ∀ ch ∈ t, pyIsSpace ch → ch = ' ' :=
      fun ch hch => hl ch (List.mem_cons_of_mem a hch)
    by_cases ha : pyIsSpace a = true
    · have haz : a = ' ' := hl a (List.mem_cons_self a t) ha
      subst haz
      simp only [List.dropWhile_cons]
      rw [if_pos ha, if_pos (by decide)]
      exact ih ht
    · have ha2 : ¬((a == DEFAULT_CHAR) = true) := by
        intro hb
        have haz : a = ' ' := by simpa [DEFAULT_CHAR] using hb
        subst haz
        exact ha (by decide)
      simp only [List.dropWhile_cons]
      rw [if_neg ha, if_neg ha2]

theorem pyRstrip_eq_spec {l : List Char} (hl : ∀ ch ∈ l, pyIsSpace ch → ch = ' ') :
    pyRstrip l = (l.reverse.dropWhile (· == DEFAULT_CHAR)).reverse := by
  unfold pyRstrip
  rw [dropWhile_space_eq]
  intro ch hch
  exact hl ch (List.mem_reverse.mp hch)

/-- C8 counterexample: the claim as stated fails on a canvas containing a
trailing tab cell.  `draw` strips it (Python `str.rstrip()` removes *all*
trailing whitespace) and issues a clear-to-end-of-line, whereas stripping
exactly the trailing default-character (space) cells — `drawSpec`, the
claim's behaviour — would write the tab and issue no clear. -/
theorem C8_counterexample :
    (Canvas.mk 2 1 [['a', '\t']]).draw ≠ drawSpec (Canvas.mk 2 1 [['a', '\t']]) := by
  decide

/-- C8 amended: `draw` writes each row with exactly its trailing
*whitespace* cells stripped (`str.rstrip()`), followed by a
clear-to-end-of-line iff the row was shortened, then a line break; this
coincides with the claimed trailing-default-character (space) stripping
exactly when space is the only whitespace character occurring in the
canvas. -/
theorem C8_draw_strips_trailing_whitespace (c : Canvas)
    (hws : ∀ r ∈ c.data, ∀ ch ∈ r, pyIsSpace ch → ch = ' ') :
    c.draw = drawSpec c := by
  unfold Canvas.draw drawSpec
  have key : ∀ (L : List (List Char)), (∀ r ∈ L, ∀ ch ∈ r, pyIsSpace ch → ch = ' ') →
      ∀ acc : List DrawOp,
        L.foldl (fun acc line =>
          let l := pyRstrip line
          acc ++ [DrawOp.write l] ++
            (if l.length ≠ line.length then [DrawOp.clearToEol] else []) ++
            [DrawOp.newLine]) acc =
        L.foldl (fun acc line =>
          let l := (line.reverse.dropWhile (· == DEFAULT_CHAR)).reverse
          acc ++ [DrawOp.write l] ++
            (if l.length ≠ line.length then [DrawOp.clearToEol] else []) ++
            [DrawOp.newLine]) acc := by
    intro L
    induction L with
    | nil => intro _ acc; rfl
    | cons r t ih =>
      intro hL acc
      simp only [List.foldl_cons]
      rw [show pyRstrip r = (r.reverse.dropWhile (· == DEFAULT_CHAR)).reverse from
        pyRstrip_eq_spec (hL r (List.mem_cons_self r t))]
      exact ih (fun r' hr' => hL r' (List.mem_cons_of_mem r hr')) _
  exact key c.data hws []

/-- Witness for C8 at a concrete input: on a canvas whose only whitespace
cells are spaces, `draw` agrees with the spec-described stripping. -/
theorem C8_witness :
    (Canvas.mk 2 1 [['a', ' ']]).draw = drawSpec (Canvas.mk 2 1 [['a', ' ']]) :=
  C8_draw_strips_trailing_whitespace _ (by decide)

/-- C3: on an over-long CSI sequence (11 accumulated bytes with no
terminating letter or `~`, here after `ESC [`), `parse_csi` emits the ESC
key event of the intended replay and then raises `UnboundLocalError`: the
replay line `self.call_event("key", c)` reads the loop variable `c` of the
`for c in args` loop below it before that loop has ever run.  The
accumulated bytes are therefore *not* re-emitted as key events and an
exception escapes `parse_csi` (caught only by `loop_get_chars`, which
turns it into an `error` event). -/
theorem C3_csi_overflow_raises_unbound_local (st : TermState) :
    parse_csi st (List.replicate 11 '0') =
      (st.call_event "key" [.s ESC_s], [], some "UnboundLocalError: c") := by
  rfl

theorem lookup_map_update {ps : List (String × Bool)} {n : String} {v : Bool}
    (h : (ps.lookup n).isSome) :
    (ps.map (fun p => if p.1 == n then (p.1, v) else p)).lookup n = some v := by
  induction ps with
  | nil => simp [List.lookup] at h
  | cons a t ih =>
    by_cases ha : a.1 = n
    · have hb : (a.1 == n) = true := beq_iff_eq.mpr ha
      have hb' : (n == a.1) = true := beq_iff_eq.mpr ha.symm
      simp only [List.map_cons, if_pos hb]
      simp [List.lookup, hb']
    · have hb : ¬((a.1 == n) = true) := by simp [beq_eq_false_iff_ne.mpr ha]
      have hb' : (n == a.1) = false := beq_eq_false_iff_ne.mpr (Ne.symm ha)
      simp only [List.lookup, hb'] at h
      simp only [List.map_cons]
      rw [if_neg hb]
      simp only [List.lookup, hb']
      exact ih h

theorem lookup_append_single {ps : List (String × Bool)} {n : String} {v : Bool}
    (h : ps.lookup n = none) : (ps ++ [(n, v)]).lookup n = some v := by
  induction ps with
  | nil => simp [List.lookup]
  | cons a t ih =>
    by_cases ha : n = a.1
    · have hb : (n == a.1) = true := beq_iff_eq.mpr ha
      simp only [List.lookup, hb] at h
      cases h
    · have hb : (n == a.1) = false := beq_eq_false_iff_ne.mpr ha
      simp only [List.cons_append, List.lookup, hb] at h ⊢
      exact ih h

theorem get_prop_setPropList (ps : List (String × Bool)) (n : String) (v : Bool) :
    (setPropList ps n v).lookup n = some v := by
  unfold setPropList
  split
  · exact lookup_map_update ‹_›
  · rename_i hns
    apply lookup_append_single
    cases h : ps.lookup n with
    | none => rfl
    | some b => rw [h] at hns; simp at hns

theorem term_gate_after (name : String) (value : Bool) (body : OutTerm → OutTerm × List String)
    (hprops : ∀ o, (body o).1.props = o.props) (ot : OutTerm) (f0 : Bool) :
    (term_gate ot name value f0 body).1.get_prop name = some value := by
  unfold term_gate OutTerm.set_prop
  by_cases h : ot.get_prop name = some value
  · rw [if_pos h]
    by_cases hf : (false || f0) = true
    · rw [if_pos hf]
      show (body ot).1.get_prop name = some value
      unfold OutTerm.get_prop
      rw [hprops]
      exact h
    · rw [if_neg hf]
      exact h
  · rw [if_neg h]
    rw [if_pos (by simp)]
    show (body _).1.get_prop name = some value
    unfold OutTerm.get_prop
    rw [hprops]
    exact get_prop_setPropList ot.props name value

theorem term_gate_cached (name : String) (value : Bool) (body : OutTerm → OutTerm × List String)
    (ot : OutTerm) (h : ot.get_prop name = some value) :
    term_gate ot name value false body = (ot, []) := by
  unfold term_gate OutTerm.set_prop
  rw [if_pos h]
  rfl

theorem term_gate_forced (name : String) (value : Bool) (body : OutTerm → OutTerm × List String)
    (ot : OutTerm) (h : ot.get_prop name = some value) :
    term_gate ot name value true body = body ot := by
  unfold term_gate OutTerm.set_prop
  rw [if_pos h]
  rfl

theorem term_gate_spec (name : String) (value : Bool) (body : OutTerm → OutTerm × List String)
    (hprops : ∀ o, (body o).1.props = o.props) (hne : ∀ o, (body o).2 ≠ [])
    (ot : OutTerm) (f0 : Bool) :
    (ot.get_prop name ≠ some value → (term_gate ot name value false body).2 ≠ []) ∧
    (term_gate (term_gate ot name value f0 body).1 name value false body).2 = [] ∧
    (term_gate (term_gate ot name value f0 body).1 name value true body).2 ≠ [] := by
  refine ⟨?_, ?_, ?_⟩
  · intro h
    unfold term_gate OutTerm.set_prop
    rw [if_neg h, if_pos (by simp)]
    exact hne _
  · rw [term_gate_cached name value body _ (term_gate_after name value body hprops ot f0)]
  · rw [term_gate_forced name value body _ (term_gate_after name value body hprops ot f0)]
    exact hne _

theorem reset_props (o : OutTerm) : (Terminal.reset o).1.props = o.props := by
  unfold Terminal.reset
  split <;> rfl

/-- C7: each property-cached toggle — mouse tracking, bracketed paste,
alternate screen, cursor visibility, each in both directions — emits its
control sequence on a first call whose requested value is not already
cached, emits nothing on an immediately repeated call with the same
requested value, and emits again when called with `force=True`. -/
theorem C7_property_cache_gates_toggles :
    (∀ (ot : OutTerm) (f0 : Bool),
      (ot.get_prop "mouse_tracking" ≠ some true → (enable_mouse_tracking ot false).2 ≠ []) ∧
      (enable_mouse_tracking (enable_mouse_tracking ot f0).1 false).2 = [] ∧
      (enable_mouse_tracking (enable_mouse_tracking ot f0).1 true).2 ≠ []) ∧
    (∀ (ot : OutTerm) (f0 : Bool),
      (ot.get_prop "mouse_tracking" ≠ some false → (disable_mouse_tracking ot false).2 ≠ []) ∧
      (disable_mouse_tracking (disable_mouse_tracking ot f0).1 false).2 = [] ∧
      (disable_mouse_tracking (disable_mouse_tracking ot f0).1 true).2 ≠ []) ∧
    (∀ (ot : OutTerm) (f0 : Bool),
      (ot.get_prop "bracketed_paste" ≠ some true → (enable_bracketed_paste ot false).2 ≠ []) ∧
      (enable_bracketed_paste (enable_bracketed_paste ot f0).1 false).2 = [] ∧
      (enable_bracketed_paste (enable_bracketed_paste ot f0).1 true).2 ≠ []) ∧
    (∀ (ot : OutTerm) (f0 : Bool),
      (ot.get_prop "bracketed_paste" ≠ some false → (disable_bracketed_paste ot false).2 ≠ []) ∧
      (disable_bracketed_paste (disable_bracketed_paste ot f0).1 false).2 = [] ∧
      (disable_bracketed_paste (disable_bracketed_paste ot f0).1 true).2 ≠ []) ∧
    (∀ (ot : OutTerm) (f0 : Bool),
      (ot.get_prop "cursor_visible" ≠ some true → (set_cursor_visible ot false).2 ≠ []) ∧
      (set_cursor_visible (set_cursor_visible ot f0).1 false).2 = [] ∧
      (set_cursor_visible (set_cursor_visible ot f0).1 true).2 ≠ []) ∧
    (∀ (ot : OutTerm) (f0 : Bool),
      (ot.get_prop "cursor_visible" ≠ some false → (set_cursor_invisible ot false).2 ≠ []) ∧
      (set_cursor_invisible (set_cursor_invisible ot f0).1 false).2 = [] ∧
      (set_cursor_invisible (set_cursor_invisible ot f0).1 true).2 ≠ []) ∧
    (∀ (ot : OutTerm) (f0 : Bool),
      (ot.get_prop "alternative_screen" ≠ some true →
        (enable_alternative_screen ot false).2 ≠ []) ∧
      (enable_alternative_screen (enable_alternative_screen ot f0).1 false).2 = [] ∧
      (enable_alternative_screen (enable_alternative_screen ot f0).1 true).2 ≠ []) ∧
    (∀ (ot : OutTerm) (f0 : Bool),
      (ot.get_prop "alternative_screen" ≠ some false →
        (disable_alternative_screen ot false).2 ≠ []) ∧
      (disable_alternative_screen (disable_alternative_screen ot f0).1 false).2 = [] ∧
      (disable_alternative_screen (disable_alternative_screen ot f0).1 true).2 ≠ []) := by
  refine ⟨?_, ?_, ?_, ?_, ?_, ?_, ?_, ?_⟩
  · exact term_gate_spec "mouse_tracking" true _ (fun o => rfl) (fun o => by simp)
  · exact term_gate_spec "mouse_tracking" false _ (fun o => rfl) (fun o => by simp)
  · exact term_gate_spec "bracketed_paste" true _ (fun o => rfl) (fun o => by simp)
  · exact term_gate_spec "bracketed_paste" false _ (fun o => rfl) (fun o => by simp)
  · exact term_gate_spec "cursor_visible" true _ (fun o => rfl) (fun o => by simp)
  · exact term_gate_spec "cursor_visible" false _ (fun o => rfl) (fun o => by simp)
  · exact term_gate_spec "alternative_screen" true _ (fun o => reset_props o) (fun o => by simp)
  · exact term_gate_spec "alternative_screen" false _ (fun o => rfl) (fun o => by simp)

/-- Witness for C7 at a concrete input: on a fresh terminal (empty cache)
enabling mouse tracking emits, an immediate repeat emits nothing, and a
forced repeat emits again. -/
theorem C7_witness :
    (enable_mouse_tracking ⟨[], none⟩ false).2 ≠ [] ∧
    (enable_mouse_tracking (enable_mouse_tracking ⟨[], none⟩ false).1 false).2 = [] ∧
    (enable_mouse_tracking (enable_mouse_tracking ⟨[], none⟩ false).1 true).2 ≠ [] := by
  have h := C7_property_cache_gates_toggles.1 ⟨[], none⟩ false
  exact ⟨h.1 (by decide), h.2.1, h.2.2⟩

theorem mem_call_event {st : TermState} {ty : String} {args : List EvArg} {ev : Event}
    (h : ev ∈ (st.call_event ty args).queue) : ev ∈ st.queue ∨ ev = loadEvent ty args := by
  simpa [TermState.call_event, call_event_queue] using h

theorem noCR_call_event {st : TermState} {ty : String} {args : List EvArg}
    (h : noCRstate st) : noCRstate (st.call_event ty args) := h

theorem notBareEsc_key (k : String) : notBareEsc (loadEvent "key" [.s k]) = (k != ESC_s) := rfl

theorem evNoCR_key (k : String) : evNoCR (loadEvent "key" [.s k]) = (k != "\r") := rfl

theorem KEYS_some_good {k : String} (hk : some k ∈ KEYS) : k ≠ ESC_s ∧ k ≠ "\r" := by
  have hall : (KEYS.all fun o => o.getD "" != ESC_s && o.getD "" != "\r") = true := by decide
  have h := List.all_eq_true.mp hall _ hk
  simpa using h

theorem lookup_mem_values {α β : Type} [BEq α] {l : List (α × β)} {a : α} {b : β}
    (h : l.lookup a = some b) : b ∈ l.map Prod.snd := by
  induction l with
  | nil => cases h
  | cons p t ih =>
    simp only [List.lookup] at h
    cases hc : (a == p.1) with
    | true => rw [hc] at h; cases h; simp
    | false =>
      rw [hc] at h
      simp only [List.map_cons, List.mem_cons]
      exact Or.inr (ih h)

theorem SS3_lookup_good {c : Char} {k : String} (h : SS3_KEYS.lookup c = some k) :
    k ≠ ESC_s ∧ k ≠ "\r" := by
  have hk := lookup_mem_values h
  have hall : ((SS3_KEYS.map Prod.snd).all fun s => s != ESC_s && s != "\r") = true := by decide
  have hg := List.all_eq_true.mp hall _ hk
  simpa using hg

theorem contains_eq_false_of_not_mem {a : Char} {l : List Char} (h : a ∉ l) :
    l.contains a = false := by simp [h]

theorem csi_command_queue (st : TermState) (args : List Char) (cmd : Char) :
    ∀ ev ∈ (csi_command st args cmd).1.queue,
      ev ∈ st.queue ∨ ((noCRstate st → evNoCR ev = true) ∧ notBareEsc ev = true) := by
  intro ev hev
  simp only [csi_command] at hev
  by_cases h1 : cmd.toUpper = 'A'
  · rw [if_pos h1] at hev
    rcases mem_call_event hev with h | rfl
    · exact Or.inl h
    · exact Or.inr ⟨fun _ => rfl, rfl⟩
  rw [if_neg h1] at hev
  by_cases h2 : cmd.toUpper = 'B'
  · rw [if_pos h2] at hev
    rcases mem_call_event hev with h | rfl
    · exact Or.inl h
    · exact Or.inr ⟨fun _ => rfl, rfl⟩
  rw [if_neg h2] at hev
  by_cases h3 : cmd.toUpper = 'C'
  · rw [if_pos h3] at hev
    rcases mem_call_event hev with h | rfl
    · exact Or.inl h
    · exact Or.inr ⟨fun _ => rfl, rfl⟩
  rw [if_neg h3] at hev
  by_cases h4 : cmd.toUpper = 'D'
  · rw [if_pos h4] at hev
    rcases mem_call_event hev with h | rfl
    · exact Or.inl h
    · exact Or.inr ⟨fun _ => rfl, rfl⟩
  rw [if_neg h4] at hev
  by_cases h5 : cmd.toUpper = 'F'
  · rw [if_pos h5] at hev
    rcases mem_call_event hev with h | rfl
    · exact Or.inl h
    · exact Or.inr ⟨fun _ => rfl, rfl⟩
  rw [if_neg h5] at hev
  by_cases h6 : cmd.toUpper = 'H'
  · rw [if_pos h6] at hev
    rcases mem_call_event hev with h | rfl
    · exact Or.inl h
    · exact Or.inr ⟨fun _ => rfl, rfl⟩
  rw [if_neg h6] at hev
  by_cases h7 : cmd.toUpper = '~'
  · rw [if_pos h7] at hev
    by_cases hd : pyIsDecimal args = true
    · rw [if_neg (not_not_intro hd)] at hev
      by_cases hn : digitsToNat args < KEYS.length
      · rw [if_pos hn] at hev
        cases hk : (if digitsToNat args = 0 then KEYS.getLastD none
            else KEYS.getD (digitsToNat args - 1) none) with
        | some k =>
          rw [hk] at hev
          rcases mem_call_event hev with h | rfl
          · exact Or.inl h
          · have hkmem : some k ∈ KEYS := by
              split at hk
              · rw [show KEYS.getLastD none = none from rfl] at hk
                cases hk
              · unfold List.getD at hk
                cases hg : KEYS.get? (digitsToNat args - 1) with
                | none => rw [hg] at hk; cases hk
                | some o => rw [hg] at hk; cases hk; exact List.get?_mem hg
            have hg := KEYS_some_good hkmem
            refine Or.inr ⟨fun _ => ?_, ?_⟩
            · rw [evNoCR_key]; exact bne_iff_ne.mpr hg.2
            · rw [notBareEsc_key]; exact bne_iff_ne.mpr hg.1
        | none =>
          rw [hk] at hev
          exact Or.inl hev
      · rw [if_neg hn] at hev
        by_cases h200 : digitsToNat args = 200
        · rw [if_pos h200] at hev
          rcases mem_call_event hev with h | rfl
          · exact Or.inl h
          · exact Or.inr ⟨fun _ => rfl, rfl⟩
        · rw [if_neg h200] at hev
          by_cases h201 : digitsToNat args = 201
          · rw [if_pos h201] at hev
            cases hpt : st.paste_text with
            | some txt =>
              rw [hpt] at hev
              rcases mem_call_event hev with h | rfl
              · exact Or.inl h
              · refine Or.inr ⟨fun hcr => ?_, rfl⟩
                show (!((String.mk txt).toList.contains '\r')) = true
                have hni : '\r' ∉ txt := hcr txt hpt
                simpa using hni
            | none =>
              rw [hpt] at hev
              rcases mem_call_event hev with h | rfl
              · exact Or.inl h
              · exact Or.inr ⟨fun _ => rfl, rfl⟩
          · rw [if_neg h201] at hev
            exact Or.inl hev
    · rw [if_pos hd] at hev
      exact Or.inl hev
  rw [if_neg h7] at hev
  by_cases h8 : cmd.toUpper = 'R'
  · rw [if_pos h8] at hev
    by_cases hr : ((pySplit ';' args).all pyIsDecimal) = true
    · rw [if_pos hr] at hev
      rcases mem_call_event hev with h | rfl
      · exact Or.inl h
      · exact Or.inr ⟨fun _ => rfl, rfl⟩
    · rw [if_neg hr] at hev
      exact Or.inl hev
  · rw [if_neg h8] at hev
    exact Or.inl hev

theorem csi_command_noCR (st : TermState) (args : List Char) (cmd : Char)
    (h : noCRstate st) : noCRstate (csi_command st args cmd).1 := by
  simp only [csi_command]
  by_cases h1 : cmd.toUpper = 'A'
  · rw [if_pos h1]; exact h
  rw [if_neg h1]
  by_cases h2 : cmd.toUpper = 'B'
  · rw [if_pos h2]; exact h
  rw [if_neg h2]
  by_cases h3 : cmd.toUpper = 'C'
  · rw [if_pos h3]; exact h
  rw [if_neg h3]
  by_cases h4 : cmd.toUpper = 'D'
  · rw [if_pos h4]; exact h
  rw [if_neg h4]
  by_cases h5 : cmd.toUpper = 'F'
  · rw [if_pos h5]; exact h
  rw [if_neg h5]
  by_cases h6 : cmd.toUpper = 'H'
  · rw [if_pos h6]; exact h
  rw [if_neg h6]
  by_cases h7 : cmd.toUpper = '~'
  · rw [if_pos h7]
    by_cases hd : pyIsDecimal args = true
    · rw [if_neg (not_not_intro hd)]
      by_cases hn : digitsToNat args < KEYS.length
      · rw [if_pos hn]
        cases hk : (if digitsToNat args = 0 then KEYS.getLastD none
            else KEYS.getD (digitsToNat args - 1) none) with
        | some k => exact h
        | none => exact h
      · rw [if_neg hn]
        by_cases h200 : digitsToNat args = 200
        · rw [if_pos h200]
          intro pt hpt
          cases hpt
          simp
        · rw [if_neg h200]
          by_cases h201 : digitsToNat args = 201
          · rw [if_pos h201]
            cases hpt : st.paste_text with
            | some txt => intro pt hp; simp at hp
            | none => intro pt hp; simp at hp
          · rw [if_neg h201]
            exact h
    · rw [if_pos hd]
      exact h
  rw [if_neg h7]
  by_cases h8 : cmd.toUpper = 'R'
  · rw [if_pos h8]
    by_cases hr : ((pySplit ';' args).all pyIsDecimal) = true
    · rw [if_pos hr]; exact h
    · rw [if_neg hr]; exact h
  · rw [if_neg h8]
    exact h

theorem csiLoop_queue (st : TermState) :
    ∀ (input args : List Char), ∀ ev ∈ (csiLoop st args input).1.queue,
      ev ∈ st.queue ∨
        ((noCRstate st → evNoCR ev = true) ∧
         ((csiLoop st args input).2.2 = none → notBareEsc ev = true)) := by
  intro input
  induction input with
  | nil =>
    intro args ev
    simp only [csiLoop]
    by_cases hterm : ((args.getLastD '?').isAlpha || args.getLastD '?' == '~') = true
    · rw [if_pos hterm]
      intro hev
      rcases csi_command_queue st args.dropLast (args.getLastD '?') ev hev with h | ⟨hcr, hbe⟩
      · exact Or.inl h
      · exact Or.inr ⟨hcr, fun _ => hbe⟩
    · rw [if_neg hterm]
      intro hev
      exact Or.inl hev
  | cons c rest ih =>
    intro args ev
    simp only [csiLoop]
    by_cases hterm : ((args.getLastD '?').isAlpha || args.getLastD '?' == '~') = true
    · rw [if_pos hterm]
      intro hev
      rcases csi_command_queue st args.dropLast (args.getLastD '?') ev hev with h | ⟨hcr, hbe⟩
      · exact Or.inl h
      · exact Or.inr ⟨hcr, fun _ => hbe⟩
    · rw [if_neg hterm]
      by_cases hlen : (args ++ [c]).length > 10
      · rw [if_pos hlen]
        intro hev
        rcases mem_call_event hev with h | rfl
        · exact Or.inl h
        · refine Or.inr ⟨fun _ => rfl, fun habs => ?_⟩
          cases habs
      · rw [if_neg hlen]
        intro hev
        exact ih (args ++ [c]) ev hev

theorem csiLoop_noCR (st : TermState) :
    ∀ (input args : List Char), noCRstate st → noCRstate (csiLoop st args input).1 := by
  intro input
  induction input with
  | nil =>
    intro args h
    simp only [csiLoop]
    by_cases hterm : ((args.getLastD '?').isAlpha || args.getLastD '?' == '~') = true
    · rw [if_pos hterm]
      exact csi_command_noCR st args.dropLast (args.getLastD '?') h
    · rw [if_neg hterm]
      exact h
  | cons c rest ih =>
    intro args h
    simp only [csiLoop]
    by_cases hterm : ((args.getLastD '?').isAlpha || args.getLastD '?' == '~') = true
    · rw [if_pos hterm]
      exact csi_command_noCR st args.dropLast (args.getLastD '?') h
    · rw [if_neg hterm]
      by_cases hlen : (args ++ [c]).length > 10
      · rw [if_pos hlen]
        exact noCR_call_event h
      · rw [if_neg hlen]
        exact ih (args ++ [c]) h

theorem parse_csi_queue (st : TermState) (input : List Char) :
    ∀ ev ∈ (parse_csi st input).1.queue,
      ev ∈ st.queue ∨
        ((noCRstate st → evNoCR ev = true) ∧
         ((parse_csi st input).2.2 = none → notBareEsc ev = true)) := by
  cases input with
  | nil => intro ev hev; exact Or.inl hev
  | cons a rest =>
    simp only [parse_csi]
    by_cases ha : a = 'M'
    · rw [if_pos ha]
      by_cases hmt : ((st.props.lookup "mouse_tracking").getD false) = true
      · rw [if_neg (not_not_intro hmt)]
        rcases rest with _ | ⟨b, _ | ⟨x, _ | ⟨y, rest'⟩⟩⟩
        · intro ev hev; exact Or.inl hev
        · intro ev hev; exact Or.inl hev
        · intro ev hev; exact Or.inl hev
        · intro ev hev
          rcases mem_call_event hev with h | rfl
          · exact Or.inl h
          · exact Or.inr ⟨fun _ => rfl, fun _ => rfl⟩
      · rw [if_pos hmt]
        intro ev hev
        exact Or.inl hev
    · rw [if_neg ha]
      exact csiLoop_queue st rest [a]

theorem parse_csi_noCR (st : TermState) (input : List Char) (h : noCRstate st) :
    noCRstate (parse_csi st input).1 := by
  cases input with
  | nil => exact h
  | cons a rest =>
    simp only [parse_csi]
    by_cases ha : a = 'M'
    · rw [if_pos ha]
      by_cases hmt : ((st.props.lookup "mouse_tracking").getD false) = true
      · rw [if_neg (not_not_intro hmt)]
        rcases rest with _ | ⟨b, _ | ⟨x, _ | ⟨y, rest'⟩⟩⟩
        · exact h
        · exact h
        · exact h
        · exact noCR_call_event h
      · rw [if_pos hmt]
        exact h
    · rw [if_neg ha]
      exact csiLoop_noCR st rest [a] h

theorem parse_ss3_queue (st : TermState) (input : List Char) :
    ∀ ev ∈ (parse_ss3 st input).1.queue,
      ev ∈ st.queue ∨ ((noCRstate st → evNoCR ev = true) ∧ notBareEsc ev = true) := by
  cases input with
  | nil => intro ev hev; exact Or.inl hev
  | cons c rest =>
    simp only [parse_ss3]
    cases hk : SS3_KEYS.lookup c with
    | some k =>
      intro ev hev
      rcases mem_call_event hev with h | rfl
      · exact Or.inl h
      · have hg := SS3_lookup_good hk
        refine Or.inr ⟨fun _ => ?_, ?_⟩
        · rw [evNoCR_key]; exact bne_iff_ne.mpr hg.2
        · rw [notBareEsc_key]; exact bne_iff_ne.mpr hg.1
    | none =>
      intro ev hev
      exact Or.inl hev

theorem parse_ss3_noCR (st : TermState) (input : List Char) (h : noCRstate st) :
    noCRstate (parse_ss3 st input).1 := by
  cases input with
  | nil => exact h
  | cons c rest =>
    simp only [parse_ss3]
    cases hk : SS3_KEYS.lookup c with
    | some k => exact noCR_call_event h
    | none => exact h

theorem evNoCR_key2 (k : String) (a : Bool) :
    evNoCR (loadEvent "key" [.s k, .b a]) = (k != "\r") := rfl

theorem notBareEsc_key_alt (k : String) :
    notBareEsc (loadEvent "key" [.s k, .b true]) = true := rfl

theorem string_singleton_bne_cr {c : Char} (h : c ≠ '\r') :
    (String.mk [c] != "\r") = true := by
  apply bne_iff_ne.mpr
  intro he
  apply h
  have h2 : [c] = ['\r'] := congrArg String.toList he
  exact (List.cons_eq_cons.mp h2).1

theorem converted_ne_cr (c0 : Char) : (if c0 = '\r' then '\n' else c0) ≠ '\r' := by
  by_cases h : c0 = '\r'
  · rw [if_pos h]; decide
  · rw [if_neg h]; exact h


theorem string_singleton_bne {c d : Char} (h : c ≠ d) :
    (String.mk [c] != String.mk [d]) = true := by
  apply bne_iff_ne.mpr
  intro he
  apply h
  have h2 : [c] = [d] := congrArg String.toList he
  exact (List.cons_eq_cons.mp h2).1

theorem converted_ne_esc {c0 : Char} (h : c0 ≠ ESCc) :
    (if c0 = '\r' then '\n' else c0) ≠ ESCc := by
  by_cases hr : c0 = '\r'
  · rw [if_pos hr]; decide
  · rw [if_neg hr]; exact h

theorem gc_match_emits (s : TermState) (lie : Bool) (c1 : Char) (rest : List Char)
    (hc1 : c1 ≠ '\r') (hesc : c1 ≠ ESCc) :
    (∀ ev ∈ (gc_match s lie c1 rest).st.queue,
      ev ∈ s.queue ∨ ((noCRstate s → evNoCR ev = true) ∧
        ((gc_match s lie c1 rest).exc = none → notBareEsc ev = true))) ∧
    (noCRstate s → noCRstate (gc_match s lie c1 rest).st) := by
  simp only [gc_match]
  by_cases hlie : lie = true
  · rw [if_pos hlie]
    by_cases hb : c1 = '['
    · rw [if_pos hb]
      constructor
      · intro ev hev
        rcases parse_csi_queue s rest ev hev with h | ⟨hnc, hbe⟩
        · exact Or.inl h
        · exact Or.inr ⟨hnc, fun hx => hbe hx⟩
      · exact fun hcr => parse_csi_noCR s rest hcr
    rw [if_neg hb]
    by_cases ho : c1 = 'O'
    · rw [if_pos ho]
      constructor
      · intro ev hev
        rcases parse_ss3_queue s rest ev hev with h | ⟨hnc, hbe⟩
        · exact Or.inl h
        · exact Or.inr ⟨hnc, fun _ => hbe⟩
      · exact fun hcr => parse_ss3_noCR s rest hcr
    · rw [if_neg ho]
      constructor
      · intro ev hev
        rcases mem_call_event hev with h | rfl
        · exact Or.inl h
        · refine Or.inr ⟨fun _ => ?_, fun _ => notBareEsc_key_alt _⟩
          rw [evNoCR_key2]
          exact string_singleton_bne_cr hc1
      · exact fun hcr => noCR_call_event hcr
  · rw [if_neg hlie]
    by_cases hp : s.pasting = true
    · rw [if_pos hp]
      cases hpt : s.paste_text with
      | some pt =>
        constructor
        · intro ev hev
          exact Or.inl hev
        · intro hcr pt' hpt'
          have hpe : pt ++ [c1] = pt' := by simpa using hpt'
          subst hpe
          intro hmem
          rcases List.mem_append.mp hmem with hm | hm
          · exact hcr pt hpt hm
          · exact hc1 (List.mem_singleton.mp hm).symm
      | none =>
        constructor
        · intro ev hev
          exact Or.inl hev
        · intro hcr pt' hpt'
          exact hcr pt' hpt'
    · rw [if_neg hp]
      constructor
      · intro ev hev
        rcases mem_call_event hev with h | rfl
        · exact Or.inl h
        · refine Or.inr ⟨fun _ => ?_, fun _ => ?_⟩
          · rw [evNoCR_key]
            exact string_singleton_bne_cr hc1
          · rw [notBareEsc_key]
            exact string_singleton_bne hesc
      · exact fun hcr => noCR_call_event hcr

/-- C10: the input decoder never delivers a carriage return.  Every event a
`get_chars` step adds to the queue satisfies `evNoCR` (a key event never
carries `"\r"`, a paste event's text never contains `'\r'`), the
accumulated bracketed-paste text stays free of `'\r'`, and a plain `"\r"`
byte read outside any escape sequence is delivered as exactly one key
event carrying `"\n"`. -/
theorem C10_decoder_never_delivers_cr (st : TermState) (lie0 : Bool) (input : List Char)
    (t : Int) (rest : List Char) (hcr : noCRstate st) :
    (∀ ev ∈ (get_chars st lie0 input t).st.queue, ev ∈ st.queue ∨ evNoCR ev = true) ∧
    noCRstate (get_chars st lie0 input t).st ∧
    (st.running = true → st.pasting = false →
      (get_chars st false ('\r' :: rest) t).st.queue =
        st.queue ++ [Event.mk "key" [.s "\n", .b false]]) := by
  have main : ∀ (inp : List Char) (lie : Bool),
      (∀ ev ∈ (get_chars st lie inp t).st.queue, ev ∈ st.queue ∨ evNoCR ev = true) ∧
      noCRstate (get_chars st lie inp t).st := by
    intro inp lie
    cases inp with
    | nil =>
      simp only [get_chars, List.head?, List.tail]
      by_cases hrun : (¬ st.running = true)
      · rw [if_pos hrun]
        exact ⟨fun ev hev => Or.inl hev, hcr⟩
      rw [if_neg hrun]
      by_cases hto : (lie = true ∧
          ALT_TIMEOUT ≤ (if st.lastKey ≠ 0 then t - st.lastKey else 0))
      · rw [if_pos hto]
        refine ⟨fun ev hev => ?_, noCR_call_event hcr⟩
        rcases mem_call_event hev with h | rfl
        · exact Or.inl h
        · exact Or.inr rfl
      · rw [if_neg hto]
        exact ⟨fun ev hev => Or.inl hev, hcr⟩
    | cons c0 rest0 =>
      simp only [get_chars, List.head?, List.tail]
      by_cases hrun : (¬ st.running = true)
      · rw [if_pos hrun]
        exact ⟨fun ev hev => Or.inl hev, hcr⟩
      rw [if_neg hrun]
      by_cases hto : (lie = true ∧
          ALT_TIMEOUT ≤ (if st.lastKey ≠ 0 then t - st.lastKey else 0))
      · rw [if_pos hto, if_pos hto]
        by_cases hesc0 : c0 = ESCc
        · rw [if_pos hesc0]
          refine ⟨fun ev hev => ?_, fun pt hpt => hcr pt hpt⟩
          rcases mem_call_event hev with h | rfl
          · exact Or.inl h
          · exact Or.inr rfl
        · rw [if_neg hesc0]
          have hcr1 : noCRstate ({ st.call_event "key" [EvArg.s ESC_s] with lastKey := t }) :=
            fun pt hpt => hcr pt hpt
          have hg := gc_match_emits { st.call_event "key" [EvArg.s ESC_s] with lastKey := t }
            false (if c0 = '\r' then '\n' else c0) rest0
            (converted_ne_cr c0) (converted_ne_esc hesc0)
          refine ⟨fun ev hev => ?_, hg.2 hcr1⟩
          rcases hg.1 ev hev with h | ⟨hnc, _⟩
          · rcases mem_call_event
              (show ev ∈ (st.call_event "key" [EvArg.s ESC_s]).queue from h) with h2 | rfl
            · exact Or.inl h2
            · exact Or.inr rfl
          · exact Or.inr (hnc hcr1)
      · rw [if_neg hto, if_neg hto]
        by_cases hesc0 : c0 = ESCc
        · rw [if_pos hesc0]
          exact ⟨fun ev hev => Or.inl hev, fun pt hpt => hcr pt hpt⟩
        · rw [if_neg hesc0]
          have hcr1 : noCRstate ({ st with lastKey := t }) := fun pt hpt => hcr pt hpt
          have hg := gc_match_emits { st with lastKey := t } lie
            (if c0 = '\r' then '\n' else c0) rest0
            (converted_ne_cr c0) (converted_ne_esc hesc0)
          refine ⟨fun ev hev => ?_, hg.2 hcr1⟩
          rcases hg.1 ev hev with h | ⟨hnc, _⟩
          · exact Or.inl h
          · exact Or.inr (hnc hcr1)
  refine ⟨(main input lie0).1, (main input lie0).2, ?_⟩
  intro hrun hpaste
  simp [get_chars, gc_match, hrun, hpaste, TermState.call_event, call_event_queue,
    loadEvent, ESCc]

/-- C4 (amended): (a) if an ESC was seen (`last_is_escape`), no byte is
available, and the ESC has aged at least `ALT_TIMEOUT`, the step emits
exactly one bare-ESC key event and nothing else, returning `False`;
(b) if instead a follow-up byte arrives immediately (within the window)
and the step raises no exception, no bare-ESC key event is emitted for
that ESC.  (The exception-free proviso is exactly the abandoned over-long
CSI case: that path emits an ESC key event as the start of its replay and
then raises — see `C4_counterexample`.) -/
theorem C4_lone_esc_timeout (st : TermState) (t : Int) :
    (st.running = true → st.lastKey ≠ 0 → ALT_TIMEOUT ≤ t - st.lastKey →
      get_chars st true [] t =
        ⟨st.call_event "key" [.s ESC_s], [], none, some false⟩) ∧
    (∀ (c0 : Char) (rest : List Char),
      (if st.lastKey ≠ 0 then t - st.lastKey else 0) < ALT_TIMEOUT →
      (get_chars st true (c0 :: rest) t).exc = none →
      ∀ ev ∈ (get_chars st true (c0 :: rest) t).st.queue,
        ev ∈ st.queue ∨ notBareEsc ev = true) := by
  constructor
  · intro hrun hlk hge
    simp only [get_chars, List.head?, List.tail]
    rw [if_neg (by simp [hrun])]
    have hti : (if st.lastKey ≠ 0 then t - st.lastKey else 0) = t - st.lastKey := if_pos hlk
    rw [hti]
    have hcond : True ∧ t - st.lastKey ≥ ALT_TIMEOUT := ⟨trivial, hge⟩
    rw [if_pos hcond, if_pos hcond]
  · intro c0 rest hti hexc ev hev
    simp only [get_chars, List.head?, List.tail] at hexc hev
    by_cases hrun : (¬ st.running = true)
    · rw [if_pos hrun] at hev
      exact Or.inl hev
    rw [if_neg hrun] at hexc hev
    have hcond : ¬(True ∧
        (if st.lastKey ≠ 0 then t - st.lastKey else 0) ≥ ALT_TIMEOUT) := by
      rintro ⟨-, hge⟩
      exact absurd hti (not_lt.mpr hge)
    rw [if_neg hcond, if_neg hcond] at hexc hev
    by_cases hesc0 : c0 = ESCc
    · rw [if_pos hesc0] at hev
      exact Or.inl hev
    · rw [if_neg hesc0] at hexc hev
      have hg := gc_match_emits { st with lastKey := t } true
        (if c0 = '\r' then '\n' else c0) rest (converted_ne_cr c0) (converted_ne_esc hesc0)
      rcases hg.1 ev hev with h | ⟨-, hbe⟩
      · exact Or.inl h
      · exact Or.inr (hbe hexc)

/-- C4 counterexample to the claim as frozen: with an ESC just seen
(`last_is_escape = True`, `ti = 0 < ALT_TIMEOUT`) and an immediate
follow-up byte `[` that begins an over-long CSI sequence, the step does
emit a bare-ESC key event (the start of the abandoned sequence's replay),
so "a follow-up byte arrives immediately → no bare-ESC key event is
emitted for that ESC" fails as stated. -/
theorem C4_counterexample :
    ((if (1 : Int) ≠ 0 then (1 : Int) - 1 else 0) < ALT_TIMEOUT) ∧
    (get_chars ⟨[], [], false, none, 1, true, []⟩ true
        ('[' :: List.replicate 11 '0') 1).st.queue =
      [Event.mk "key" [.s ESC_s, .b false]] ∧
    notBareEsc (Event.mk "key" [.s ESC_s, .b false]) = false := by
  decide

/-- Witness for C4 at concrete inputs: a lone aged ESC yields exactly the
bare-ESC key event (conjunct (a) at `t = 401`, `last_key = 1`), and an
immediate exception-free follow-up (`'a'`, alt-key) emits no bare-ESC
event. -/
theorem C4_witness :
    get_chars ⟨[], [], false, none, 1, true, []⟩ true [] 401 =
      ⟨⟨[Event.mk "key" [.s ESC_s, .b false]], [], false, none, 1, true, []⟩,
        [], none, some false⟩ ∧
    (loadEvent "key" [.s "a", .b true] ∈
        (⟨[], [], false, none, 1, true, []⟩ : TermState).queue ∨
      notBareEsc (loadEvent "key" [.s "a", .b true]) = true) := by
  constructor
  · have h := (C4_lone_esc_timeout ⟨[], [], false, none, 1, true, []⟩ 401).1
      rfl (by decide) (by decide)
    exact h.trans (by decide)
  · exact (C4_lone_esc_timeout ⟨[], [], false, none, 1, true, []⟩ 1).2 'a' []
      (by decide) (by decide) (loadEvent "key" [.s "a", .b true]) (by decide)

/-- Witness for C10 at a concrete input: a `"\r"` byte typed on a fresh
terminal is delivered as a single key event carrying `"\n"`, and the paste
buffer stays `'\r'`-free. -/
theorem C10_witness :
    (get_chars ⟨[], [], false, none, 0, true, []⟩ false ['\r'] 1).st.queue =
      [Event.mk "key" [.s "\n", .b false]] ∧
    noCRstate (get_chars ⟨[], [], false, none, 0, true, []⟩ false ['\r'] 1).st := by
  have h := C10_decoder_never_delivers_cr ⟨[], [], false, none, 0, true, []⟩ false ['\r'] 1 []
    (fun pt hpt => by cases hpt)
  refine ⟨?_, h.2.1⟩
  have h3 := h.2.2 rfl rfl
  simpa using h3
